import Mathlib

/-!
# Webhook notifier of the bouncer: a shallow embedding

The package `webhook` (files `event.go` and `webhook.go`) is embedded as pure
functions over explicit state.

* A Go `string` and a Go `[]byte` are sequences of bytes; a byte is a `Nat`
  and every function that consumes bytes reduces them modulo 256 where the
  value matters.
* The buffered channel `events` is a capacity together with the list of the
  buffered events, oldest first.
* The effects of `dispatch` and `send` (requests handed to the HTTP client and
  log records) are collected in an explicit `World`.
* Library code the package calls (`crypto/sha256`, `crypto/hmac`,
  `encoding/hex`, `encoding/json`, `net/http`) is modelled next to the
  function that calls it; what is left to the environment is a field of `Env`.
-/

namespace Webhook

/-! ## Bytes and strings -/

/-- A Go `string` (and a `[]byte`): a sequence of bytes. -/
abbrev GoString := List Nat

/-- UTF-8 encoding of one code point, as `utf8.AppendRune` writes it: a
surrogate and a value beyond `U+10FFFF` are written as `U+FFFD`. -/
def encodeRune (r : Nat) : List Nat :=
  if r < 0x80 then [r]
  else if r < 0x800 then [0xC0 + r / 64, 0x80 + r % 64]
  else if (0xD800 ≤ r ∧ r < 0xE000) ∨ 0x10FFFF < r then [0xEF, 0xBF, 0xBD]
  else if r < 0x10000 then [0xE0 + r / 4096, 0x80 + r / 64 % 64, 0x80 + r % 64]
  else [0xF0 + r / 262144, 0x80 + r / 4096 % 64, 0x80 + r / 64 % 64, 0x80 + r % 64]

/-- The bytes of a string literal of the source. -/
def utf8 (s : String) : GoString := s.toList.flatMap fun c => encodeRune c.toNat

/-! ## crypto/sha256 (FIPS 180-4) -/

/-- Rotation of a 32-bit word to the right. -/
def rotr (x n : Nat) : Nat := ((x >>> n) ||| (x <<< (32 - n))) % 2^32

/-- The round constants of SHA-256. -/
def K256 : List Nat := [
  0x428a2f98, 0x71374491, 0xb5c0fbcf, 0xe9b5dba5, 0x3956c25b, 0x59f111f1, 0x923f82a4, 0xab1c5ed5,
  0xd807aa98, 0x12835b01, 0x243185be, 0x550c7dc3, 0x72be5d74, 0x80deb1fe, 0x9bdc06a7, 0xc19bf174,
  0xe49b69c1, 0xefbe4786, 0x0fc19dc6, 0x240ca1cc, 0x2de92c6f, 0x4a7484aa, 0x5cb0a9dc, 0x76f988da,
  0x983e5152, 0xa831c66d, 0xb00327c8, 0xbf597fc7, 0xc6e00bf3, 0xd5a79147, 0x06ca6351, 0x14292967,
  0x27b70a85, 0x2e1b2138, 0x4d2c6dfc, 0x53380d13, 0x650a7354, 0x766a0abb, 0x81c2c92e, 0x92722c85,
  0xa2bfe8a1, 0xa81a664b, 0xc24b8b70, 0xc76c51a3, 0xd192e819, 0xd6990624, 0xf40e3585, 0x106aa070,
  0x19a4c116, 0x1e376c08, 0x2748774c, 0x34b0bcb5, 0x391c0cb3, 0x4ed8aa4a, 0x5b9cca4f, 0x682e6ff3,
  0x748f82ee, 0x78a5636f, 0x84c87814, 0x8cc70208, 0x90befffa, 0xa4506ceb, 0xbef9a3f7, 0xc67178f2]

/-- The eight 32-bit words of the running hash value. -/
structure Digest where
  a : Nat
  b : Nat
  c : Nat
  d : Nat
  e : Nat
  f : Nat
  g : Nat
  h : Nat
deriving DecidableEq, Repr

/-- The initial hash value of SHA-256. -/
def initDigest : Digest :=
  ⟨0x6a09e667, 0xbb67ae85, 0x3c6ef372, 0xa54ff53a, 0x510e527f, 0x9b05688c, 0x1f83d9ab, 0x5be0cd19⟩

/-- A big-endian 32-bit word from four bytes. -/
def be32 (b0 b1 b2 b3 : Nat) : Nat :=
  ((b0 % 256) <<< 24) ||| ((b1 % 256) <<< 16) ||| ((b2 % 256) <<< 8) ||| (b3 % 256)

/-- The big-endian words of a block. -/
def blockWords : List Nat → List Nat
  | b0 :: b1 :: b2 :: b3 :: rest => be32 b0 b1 b2 b3 :: blockWords rest
  | _ => []

def ssig0 (x : Nat) : Nat := rotr x 7 ^^^ rotr x 18 ^^^ (x >>> 3)
def ssig1 (x : Nat) : Nat := rotr x 17 ^^^ rotr x 19 ^^^ (x >>> 10)
def bsig0 (x : Nat) : Nat := rotr x 2 ^^^ rotr x 13 ^^^ rotr x 22
def bsig1 (x : Nat) : Nat := rotr x 6 ^^^ rotr x 11 ^^^ rotr x 25

/-- Message schedule: `w` holds the words computed so far, most recent first;
`n` more words are added. -/
def schedule : Nat → List Nat → List Nat
  | 0, w => w
  | n + 1, w =>
    schedule n (((ssig1 (w.getD 1 0) + w.getD 6 0 + ssig0 (w.getD 14 0) + w.getD 15 0) % 2^32) :: w)

/-- One round of the compression function. -/
def round (s : Digest) (k w : Nat) : Digest :=
  let ch := (s.e &&& s.f) ^^^ ((s.e ^^^ (2^32 - 1)) &&& s.g)
  let maj := (s.a &&& s.b) ^^^ (s.a &&& s.c) ^^^ (s.b &&& s.c)
  let t1 := (s.h + bsig1 s.e + ch + k + w) % 2^32
  let t2 := (bsig0 s.a + maj) % 2^32
  { a := (t1 + t2) % 2^32, b := s.a, c := s.b, d := s.c,
    e := (s.d + t1) % 2^32, f := s.e, g := s.f, h := s.g }

def rounds : Digest → List Nat → List Nat → Digest
  | s, k :: ks, w :: ws => rounds (round s k w) ks ws
  | s, _, _ => s

/-- The compression function on one 64-byte block. -/
def compress (s : Digest) (block : List Nat) : Digest :=
  let w := (schedule 48 (blockWords block).reverse).reverse
  let t := rounds s K256 w
  { a := (s.a + t.a) % 2^32, b := (s.b + t.b) % 2^32, c := (s.c + t.c) % 2^32,
    d := (s.d + t.d) % 2^32, e := (s.e + t.e) % 2^32, f := (s.f + t.f) % 2^32,
    g := (s.g + t.g) % 2^32, h := (s.h + t.h) % 2^32 }

/-- Compression of `n` consecutive blocks of the padded message. -/
def blocks : Nat → Digest → List Nat → Digest
  | 0, s, _ => s
  | n + 1, s, msg => blocks n (compress s (msg.take 64)) (msg.drop 64)

/-- The four bytes of a 32-bit word, most significant first. -/
def word4 (x : Nat) : List Nat := [x >>> 24 % 256, x >>> 16 % 256, x >>> 8 % 256, x % 256]

/-- Padding: a `0x80` byte, zero bytes up to 56 modulo 64, and the bit length
as a 64-bit big-endian integer. -/
def pad (msg : List Nat) : List Nat :=
  msg ++ [0x80] ++ List.replicate ((119 - msg.length % 64) % 64) 0
    ++ word4 ((msg.length * 8) >>> 32 % 2^32) ++ word4 (msg.length * 8 % 2^32)

/-- The value `sha256.Sum256`: the 32-byte digest of a message. -/
def sha256 (msg : List Nat) : List Nat :=
  let s := blocks ((pad msg).length / 64) initDigest (pad msg)
  word4 s.a ++ word4 s.b ++ word4 s.c ++ word4 s.d ++ word4 s.e ++ word4 s.f ++ word4 s.g ++ word4 s.h

/-! ## crypto/hmac (RFC 2104) with SHA-256 -/

/-- The 64-byte key block of `hmac.New(sha256.New, key)`: a key longer than the
block size is hashed first, then the key is copied into a zeroed block. -/
def hmacKeyBlock (key : List Nat) : List Nat :=
  let k := if key.length > 64 then sha256 key else key
  k ++ List.replicate (64 - k.length) 0

/-- The value `mac.Sum(nil)` after `mac.Write(msg)`. -/
def hmacSHA256 (key msg : List Nat) : List Nat :=
  let kb := hmacKeyBlock key
  sha256 (kb.map (fun b => b ^^^ 0x5c) ++ sha256 (kb.map (fun b => b ^^^ 0x36) ++ msg))

/-! ## encoding/hex -/

/-- The constant `hextable` of `encoding/hex`. -/
def hextable : GoString := utf8 "0123456789abcdef"

/-- The function `hex.EncodeToString`. -/
def hexEncodeToString (src : List Nat) : GoString :=
  src.flatMap fun v => [hextable.getD (v % 256 / 16) 0, hextable.getD (v % 16) 0]

/-! ## webhook.go: computeHMAC -/

/-- The function `computeHMAC(body, key)`. -/
def computeHMAC (body : List Nat) (key : GoString) : GoString :=
  hexEncodeToString (hmacSHA256 key body)

/-! ## event.go: the data model -/

/-- The type `EventType`, a string. -/
abbrev EventType := GoString

def EventRequestBlocked : EventType := utf8 "request_blocked"
def EventCaptchaRequired : EventType := utf8 "captcha_required"
def EventCaptchaVerified : EventType := utf8 "captcha_verified"
def EventRequestAllowed : EventType := utf8 "request_allowed"

/-- A `time.Time` value, with the three fields of the library's struct: the
wall-clock word, the extended word (seconds since year 1, or the monotonic
clock reading when the wall word carries the monotonic flag) and the location
pointer (`none` is nil, which stands for UTC; locations are numbered). -/
structure Time where
  wall : Nat
  ext : Int
  loc : Option Nat
deriving DecidableEq, Repr

/-- The struct `Request`. -/
structure Request where
  Method : GoString
  URL : GoString
  Host : GoString
  Scheme : GoString
  Path : GoString
  UserAgent : GoString
deriving DecidableEq, Repr

/-- The struct `Event`; the pointer field `Request` is `none` when nil. -/
structure Event where
  type : EventType
  Timestamp : Time
  IP : GoString
  Action : GoString
  Reason : GoString
  Request : Option Request
deriving DecidableEq, Repr

/-! ## webhook.go: configuration and service -/

/-- The struct `Subscription`. -/
structure Subscription where
  URL : GoString
  Events : List EventType
deriving DecidableEq, Repr

/-- The method `Subscription.subscribedTo`: `slices.Contains(sub.Events, t)`. -/
def Subscription.subscribedTo (sub : Subscription) (t : EventType) : Bool :=
  sub.Events.contains t

/-- A `time.Duration`: a number of nanoseconds. -/
abbrev Duration := Int

/-- The constant `time.Second`. -/
def Second : Duration := 1000000000

/-- The header map of a request: canonical key and the values stored under it. -/
abbrev Header := List (GoString × List GoString)

/-- A request as `send` hands it to the client: method, target, header, body
and the timeout of its context. -/
structure HttpRequest where
  method : GoString
  url : GoString
  header : Header
  body : List Nat
  timeout : Duration
deriving DecidableEq, Repr

/-- What `HTTPClient.Do` returns: an error, or a response with its status code. -/
inductive DoResult where
  | err (msg : GoString)
  | resp (statusCode : Int)
deriving DecidableEq, Repr

/-- An implementation of the interface `HTTPClient`. Its answer may depend on
the request and on every request it has been handed before. -/
structure HTTPClient where
  Do : List HttpRequest → HttpRequest → DoResult

/-- A buffered channel of events: its capacity and the buffered events,
oldest first. The channels of the package are made by `New`, with a positive
capacity. -/
structure Chan where
  cap : Nat
  buf : List Event
deriving DecidableEq, Repr

/-- The struct `Service`. -/
structure Service where
  subscriptions : List Subscription
  signingKey : GoString
  http : HTTPClient
  timeout : Duration
  events : Chan

/-- A record written to the logger. -/
inductive LogRecord where
  | warn (msg : String)
  | error (msg : String)
deriving DecidableEq, Repr

/-- The observable effects: the requests handed to the client, in order, and
the log. -/
structure World where
  sent : List HttpRequest
  log : List LogRecord
deriving DecidableEq, Repr

/-- The characters of an RFC 3339 time: digits and `-`, `:`, `.`, `+`, `T`, `Z`. -/
def isTimeByte (c : Nat) : Bool :=
  (0x30 ≤ c && c ≤ 0x39) || c == 0x2d || c == 0x3a || c == 0x2e || c == 0x2b
    || c == 0x54 || c == 0x5a

/-- What the package takes from its environment. -/
structure Env where
  /-- Whether `url.Parse`, called by `http.NewRequestWithContext`, accepts the
  endpoint. -/
  urlParse : GoString → Bool
  /-- The RFC 3339 text that `Time.MarshalJSON` writes between the quotes, or
  `none` when it returns an error. -/
  timeText : Time → Option GoString
  /-- The time that `Time.UnmarshalJSON` reads from the bytes between the
  quotes, or `none` when it returns an error. -/
  timeParse : GoString → Option Time
  /-- The text of a time is made of digits and of the characters `-:.+TZ`. -/
  timeText_ok : ∀ t ts, timeText t = some ts → ts.all isTimeByte = true
  /-- The largest buffer size the runtime's `makechan` accepts for a channel of
  events. -/
  chanLimit : Nat

/-! ## net/textproto and net/http: headers -/

/-- The function `validHeaderFieldByte`: the token characters of RFC 7230. -/
def validHeaderFieldByte (c : Nat) : Bool :=
  (0x30 ≤ c && c ≤ 0x39) || (0x41 ≤ c && c ≤ 0x5a) || (0x61 ≤ c && c ≤ 0x7a)
    || (utf8 "!#$%&*+-.^_|~").contains c || c == 0x27 || c == 0x60

/-- Letter case of a canonical key: upper case at the start and after a
hyphen, lower case elsewhere. -/
def canonCase : Bool → GoString → GoString
  | _, [] => []
  | upper, c :: rest =>
    let c1 := if upper && 0x61 ≤ c && c ≤ 0x7a then c - 0x20
              else if !upper && 0x41 ≤ c && c ≤ 0x5a then c + 0x20 else c
    c1 :: canonCase (c1 == 0x2d) rest

/-- The function `textproto.CanonicalMIMEHeaderKey`: a key with a byte that is
not a token character is returned unchanged. -/
def CanonicalMIMEHeaderKey (s : GoString) : GoString :=
  if s.all validHeaderFieldByte then canonCase true s else s

/-- The method `Header.Set`: the key's entry is replaced by the single value. -/
def Header.Set (h : Header) (key value : GoString) : Header :=
  let k := CanonicalMIMEHeaderKey key
  if h.any (fun kv => kv.1 == k) then
    h.map fun kv => if kv.1 == k then (k, [value]) else kv
  else h ++ [(k, [value])]

/-- The method `Header.Values`: the values stored under the key, `none` when
the key is absent from the map. -/
def Header.Values (h : Header) (key : GoString) : Option (List GoString) :=
  (h.find? fun kv => kv.1 == CanonicalMIMEHeaderKey key).map Prod.snd

/-! ## encoding/json: the text written by json.Marshal -/

/-- The function `utf8.DecodeRune` on a non-empty input whose first byte is not
ASCII: the code point and its width. An invalid or short encoding gives
`(0xFFFD, 1)`. -/
def decodeRune : List Nat → Nat × Nat
  | [] => (0xFFFD, 0)
  | p0 :: rest =>
    if p0 < 0x80 then (p0, 1)
    else if p0 < 0xC2 then (0xFFFD, 1)
    else if p0 < 0xE0 then
      match rest with
      | b1 :: _ =>
        if 0x80 ≤ b1 && b1 ≤ 0xBF then ((p0 - 0xC0) * 64 + (b1 - 0x80), 2) else (0xFFFD, 1)
      | _ => (0xFFFD, 1)
    else if p0 < 0xF0 then
      let lo := if p0 = 0xE0 then 0xA0 else 0x80
      let hi := if p0 = 0xED then 0x9F else 0xBF
      match rest with
      | b1 :: b2 :: _ =>
        if lo ≤ b1 && b1 ≤ hi && 0x80 ≤ b2 && b2 ≤ 0xBF then
          ((p0 - 0xE0) * 4096 + (b1 - 0x80) * 64 + (b2 - 0x80), 3)
        else (0xFFFD, 1)
      | _ => (0xFFFD, 1)
    else if p0 < 0xF5 then
      let lo := if p0 = 0xF0 then 0x90 else 0x80
      let hi := if p0 = 0xF4 then 0x8F else 0xBF
      match rest with
      | b1 :: b2 :: b3 :: _ =>
        if lo ≤ b1 && b1 ≤ hi && 0x80 ≤ b2 && b2 ≤ 0xBF && 0x80 ≤ b3 && b3 ≤ 0xBF then
          ((p0 - 0xF0) * 262144 + (b1 - 0x80) * 4096 + (b2 - 0x80) * 64 + (b3 - 0x80), 4)
        else (0xFFFD, 1)
      | _ => (0xFFFD, 1)
    else (0xFFFD, 1)

/-- The escape of one ASCII byte in `appendString` with HTML escaping on. -/
def escapeASCII (b : Nat) : List Nat :=
  if b = 0x5c ∨ b = 0x22 then [0x5c, b]
  else if b = 0x08 then utf8 "\\b"
  else if b = 0x0c then utf8 "\\f"
  else if b = 0x0a then utf8 "\\n"
  else if b = 0x0d then utf8 "\\r"
  else if b = 0x09 then utf8 "\\t"
  else if b < 0x20 ∨ b = 0x3c ∨ b = 0x3e ∨ b = 0x26 then
    utf8 "\\u00" ++ [hextable.getD (b / 16) 0, hextable.getD (b % 16) 0]
  else [b]

/-- The body of the loop of `appendString`: `fuel` bounds the number of
iterations by the length of the input. -/
def escapeLoop : Nat → List Nat → List Nat
  | 0, _ => []
  | _, [] => []
  | fuel + 1, b :: rest =>
    if b < 0x80 then escapeASCII b ++ escapeLoop fuel rest
    else
      let (c, size) := decodeRune (b :: rest)
      if c = 0xFFFD ∧ size = 1 then utf8 "\\ufffd" ++ escapeLoop fuel rest
      else if c = 0x2028 ∨ c = 0x2029 then
        utf8 "\\u202" ++ [hextable.getD (c % 16) 0] ++ escapeLoop fuel (rest.drop (size - 1))
      else (b :: rest).take size ++ escapeLoop fuel (rest.drop (size - 1))

/-- The function `appendString`: a Go string as a JSON string literal. -/
def jsonString (src : GoString) : List Nat :=
  [0x22] ++ escapeLoop src.length src ++ [0x22]

/-- The members of an object, already rendered, joined into an object. -/
def jsonObject (members : List (List Nat)) : List Nat :=
  [0x7b] ++ (members.intersperse [0x2c]).flatten ++ [0x7d]

/-- One member: the quoted name, a colon and the value. -/
def jsonMember (name : String) (value : List Nat) : List Nat :=
  [0x22] ++ utf8 name ++ [0x22, 0x3a] ++ value

/-- A string member tagged `omitempty`: absent when the string is empty. -/
def omitEmpty (name : String) (v : GoString) : List (List Nat) :=
  if v = [] then [] else [jsonMember name (jsonString v)]

/-- The JSON text of a `Request`, following its struct tags. -/
def marshalRequest (r : Request) : List Nat :=
  jsonObject (omitEmpty "method" r.Method ++ omitEmpty "url" r.URL ++ omitEmpty "host" r.Host
    ++ omitEmpty "scheme" r.Scheme ++ omitEmpty "path" r.Path ++ omitEmpty "user_agent" r.UserAgent)

/-- The call `json.Marshal(event)`: the JSON text following the struct tags of
`Event`, or `none` when the timestamp's `MarshalJSON` fails. -/
def jsonMarshal (env : Env) (event : Event) : Option (List Nat) :=
  match env.timeText event.Timestamp with
  | none => none
  | some ts =>
    some (jsonObject ([jsonMember "type" (jsonString event.type),
        jsonMember "timestamp" ([0x22] ++ ts ++ [0x22]),
        jsonMember "ip" (jsonString event.IP),
        jsonMember "action" (jsonString event.Action),
        jsonMember "reason" (jsonString event.Reason)]
      ++ (match event.Request with
          | none => []
          | some r => [jsonMember "request" (marshalRequest r)])))

/-! ## encoding/json: json.Unmarshal into an Event -/

/-- The scanner's `isSpace`. -/
def isSpace (c : Nat) : Bool := c == 0x20 || c == 0x09 || c == 0x0d || c == 0x0a

/-- Insignificant white space before a token is skipped. -/
def skipSpace : List Nat → List Nat
  | [] => []
  | c :: rest => if isSpace c then skipSpace rest else c :: rest

/-- The value of a hexadecimal digit, upper or lower case. -/
def hexVal (c : Nat) : Option Nat :=
  if 0x30 ≤ c ∧ c ≤ 0x39 then some (c - 0x30)
  else if 0x61 ≤ c ∧ c ≤ 0x66 then some (c - 0x61 + 10)
  else if 0x41 ≤ c ∧ c ≤ 0x46 then some (c - 0x41 + 10)
  else none

/-- The function `getu4`: the value of a leading `\uXXXX`, if there is one. -/
def getu4 : List Nat → Option Nat
  | 0x5c :: 0x75 :: a :: b :: c :: d :: _ =>
    match hexVal a, hexVal b, hexVal c, hexVal d with
    | some a, some b, some c, some d => some (((a * 16 + b) * 16 + c) * 16 + d)
    | _, _, _, _ => none
  | _ => none

/-- The byte a one-letter escape stands for; the scanner accepts these
letters after a backslash, and `u`. -/
def unescape (e : Nat) : Option Nat :=
  if e = 0x22 ∨ e = 0x5c ∨ e = 0x2f then some e
  else if e = 0x62 then some 0x08
  else if e = 0x66 then some 0x0c
  else if e = 0x6e then some 0x0a
  else if e = 0x72 then some 0x0d
  else if e = 0x74 then some 0x09
  else none

/-- The bytes `pre` put in front of the string read by the rest of the loop. -/
def prepend (pre : List Nat) : Option (GoString × List Nat) → Option (GoString × List Nat)
  | none => none
  | some (s, rest) => some (pre ++ s, rest)

/-- A string literal, read from the byte after its opening quote: the scanner's
check of the literal together with `unquoteBytes`. The result is the Go string
and the input after the closing quote. A control byte, a bad escape and a
missing closing quote are errors; bytes that are not valid UTF-8 and lone
surrogate escapes are read as `U+FFFD`. -/
def readString : Nat → List Nat → Option (GoString × List Nat)
  | 0, _ => none
  | _, [] => none
  | fuel + 1, c :: rest =>
    if c = 0x22 then some ([], rest)
    else if c = 0x5c then
      match rest with
      | [] => none
      | e :: rest1 =>
        if e = 0x75 then
          match getu4 (c :: rest) with
          | none => none
          | some rr =>
            if 0xD800 ≤ rr ∧ rr < 0xE000 then
              match getu4 (rest1.drop 4) with
              | none => prepend [0xEF, 0xBF, 0xBD] (readString fuel (rest1.drop 4))
              | some rr1 =>
                if rr < 0xDC00 ∧ 0xDC00 ≤ rr1 ∧ rr1 < 0xE000 then
                  prepend (encodeRune ((rr - 0xD800) * 1024 + (rr1 - 0xDC00) + 0x10000))
                    (readString fuel (rest1.drop 10))
                else prepend [0xEF, 0xBF, 0xBD] (readString fuel (rest1.drop 4))
            else prepend (encodeRune rr) (readString fuel (rest1.drop 4))
        else
          match unescape e with
          | none => none
          | some b => prepend [b] (readString fuel rest1)
    else if c < 0x20 then none
    else if c < 0x80 then prepend [c] (readString fuel rest)
    else
      let (r, size) := decodeRune (c :: rest)
      prepend (encodeRune r) (readString fuel (rest.drop (size - 1)))

/-- A string literal as the scanner delimits it, read from the byte after its
opening quote: the raw bytes up to the closing quote and the input after it. -/
def scanString : List Nat → Option (List Nat × List Nat)
  | [] => none
  | c :: rest =>
    if c = 0x22 then some ([], rest)
    else if c = 0x5c then
      match rest with
      | [] => none
      | e :: rest1 =>
        if e = 0x75 then
          match rest1 with
          | a :: b :: c1 :: d :: rest2 =>
            if (hexVal a).isSome ∧ (hexVal b).isSome ∧ (hexVal c1).isSome ∧ (hexVal d).isSome then
              prepend [c, e, a, b, c1, d] (scanString rest2)
            else none
          | _ => none
        else if (unescape e).isSome then prepend [c, e] (scanString rest1)
        else none
    else if c < 0x20 then none
    else prepend [c] (scanString rest)

/-- Digits at the start of the input are dropped. -/
def skipDigits : List Nat → List Nat
  | [] => []
  | c :: rest => if 0x30 ≤ c ∧ c ≤ 0x39 then skipDigits rest else c :: rest

/-- At least one digit, then any digits. -/
def skipDigits1 : List Nat → Option (List Nat)
  | c :: rest => if 0x30 ≤ c ∧ c ≤ 0x39 then some (skipDigits rest) else none
  | [] => none

/-- The optional fraction and exponent of a number. -/
def skipFracExp (inp : List Nat) : Option (List Nat) :=
  let afterFrac : Option (List Nat) :=
    match inp with
    | 0x2e :: rest => skipDigits1 rest
    | _ => some inp
  match afterFrac with
  | none => none
  | some (e :: rest) =>
    if e = 0x65 ∨ e = 0x45 then
      match rest with
      | sgn :: rest1 => if sgn = 0x2b ∨ sgn = 0x2d then skipDigits1 rest1 else skipDigits1 rest
      | [] => none
    else some (e :: rest)
  | some [] => some []

/-- A number, as the scanner accepts it. -/
def skipNumber (inp : List Nat) : Option (List Nat) :=
  let body : List Nat → Option (List Nat) := fun
    | 0x30 :: rest => skipFracExp rest
    | c :: rest => if 0x31 ≤ c ∧ c ≤ 0x39 then skipFracExp (skipDigits rest) else none
    | [] => none
  match inp with
  | 0x2d :: rest => body rest
  | _ => body inp

/-- The scanner's limit on nesting. -/
def maxNestingDepth : Nat := 10000

/-- A value that is not stored is skipped, after the check of its syntax. The
mode tells what is expected: `0` a value, `1` the members of an object after
its opening brace or a comma, `2` the elements of an array after its opening
bracket or a comma. The result is the input after the value, the object or the
array. -/
def skipValue : Nat → Nat → Nat → List Nat → Option (List Nat)
  | 0, _, _, _ => none
  | fuel + 1, mode, depth, inp =>
    if mode = 0 then
      match inp with
      | 0x22 :: rest => (scanString rest).map Prod.snd
      | 0x7b :: rest =>
        if depth + 1 > maxNestingDepth then none
        else
          match skipSpace rest with
          | 0x7d :: rest1 => some rest1
          | rest1 => skipValue fuel 1 (depth + 1) rest1
      | 0x5b :: rest =>
        if depth + 1 > maxNestingDepth then none
        else
          match skipSpace rest with
          | 0x5d :: rest1 => some rest1
          | rest1 => skipValue fuel 2 (depth + 1) rest1
      | 0x74 :: 0x72 :: 0x75 :: 0x65 :: rest => some rest
      | 0x66 :: 0x61 :: 0x6c :: 0x73 :: 0x65 :: rest => some rest
      | 0x6e :: 0x75 :: 0x6c :: 0x6c :: rest => some rest
      | _ => skipNumber inp
    else if mode = 1 then
      match skipSpace inp with
      | 0x22 :: rest =>
        match scanString rest with
        | none => none
        | some (_, rest1) =>
          match skipSpace rest1 with
          | 0x3a :: rest2 =>
            match skipValue fuel 0 depth (skipSpace rest2) with
            | none => none
            | some rest3 =>
              match skipSpace rest3 with
              | 0x2c :: rest4 => skipValue fuel 1 depth rest4
              | 0x7d :: rest4 => some rest4
              | _ => none
          | _ => none
      | _ => none
    else
      match skipValue fuel 0 depth (skipSpace inp) with
      | none => none
      | some rest1 =>
        match skipSpace rest1 with
        | 0x2c :: rest2 => skipValue fuel 2 depth rest2
        | 0x5d :: rest2 => some rest2
        | _ => none

/-- The loop of `appendFoldedName`: ASCII letters in upper case; of the other
code points, `U+017F` and `U+212A` fold to `S` and `K`. Every other code point
is left as it is: it folds to no ASCII letter, so this does not change which
keys match a field name made of ASCII characters. -/
def foldLoop : Nat → GoString → GoString
  | 0, _ => []
  | _, [] => []
  | fuel + 1, c :: rest =>
    if c < 0x80 then (if 0x61 ≤ c ∧ c ≤ 0x7a then c - 0x20 else c) :: foldLoop fuel rest
    else
      let (r, size) := decodeRune (c :: rest)
      let folded := if r = 0x17F then 0x53 else if r = 0x212A then 0x4b else r
      encodeRune folded ++ foldLoop fuel (rest.drop (size - 1))

/-- The function `foldName`. -/
def foldName (key : GoString) : GoString := foldLoop key.length key

/-- The field a key names: the field with exactly this name, or else the first
field whose folded name is the folded key. -/
def findField {α : Type} (fields : List (String × α)) (key : GoString) : Option α :=
  match fields.find? fun f => utf8 f.1 == key with
  | some f => some f.2
  | none => (fields.find? fun f => foldName (utf8 f.1) == foldName key).map Prod.snd

/-- The value of a string field, read at the first byte of the value: a
string literal is stored, `null` leaves the field as it is, and any other
value is an error. -/
def readStringField (cur : GoString) : List Nat → Option (GoString × List Nat)
  | 0x22 :: rest => readString rest.length rest
  | 0x6e :: 0x75 :: 0x6c :: 0x6c :: rest => some (cur, rest)
  | _ => none

/-- The value of the field `Timestamp`: `Time.UnmarshalJSON` is handed the
literal; it keeps the time on `null`, parses the bytes between the quotes of a
string literal, and fails on any other value. -/
def readTimeField (env : Env) (cur : Time) : List Nat → Option (Time × List Nat)
  | 0x22 :: rest =>
    match scanString rest with
    | none => none
    | some (raw, rest1) =>
      match env.timeParse raw with
      | none => none
      | some t => some (t, rest1)
  | 0x6e :: 0x75 :: 0x6c :: 0x6c :: rest => some (cur, rest)
  | _ => none

/-- One member of an object, read at the opening quote of its key: the key,
the colon, and the value, which `store` reads into the struct according to the
key. -/
def parseMember {σ : Type} (store : GoString → σ → List Nat → Option (σ × List Nat))
    (st : σ) : List Nat → Option (σ × List Nat)
  | 0x22 :: rest =>
    match readString rest.length rest with
    | none => none
    | some (key, rest1) =>
      match skipSpace rest1 with
      | 0x3a :: rest2 => store key st (skipSpace rest2)
      | _ => none
  | _ => none

/-- The members of an object, read after the opening brace or a comma, up to
and including the closing brace. -/
def parseMembers {σ : Type} (store : GoString → σ → List Nat → Option (σ × List Nat)) :
    Nat → σ → List Nat → Option (σ × List Nat)
  | 0, _, _ => none
  | fuel + 1, st, inp =>
    match parseMember store st (skipSpace inp) with
    | none => none
    | some (st1, rest) =>
      match skipSpace rest with
      | 0x2c :: rest1 => parseMembers store fuel st1 rest1
      | 0x7d :: rest1 => some (st1, rest1)
      | _ => none

/-- An object read into a struct, from the byte after its opening brace. -/
def parseObject {σ : Type} (store : GoString → σ → List Nat → Option (σ × List Nat))
    (st : σ) (inp : List Nat) : Option (σ × List Nat) :=
  match skipSpace inp with
  | 0x7d :: rest => some (st, rest)
  | _ => parseMembers store inp.length st inp

/-- The fields of `Request`, by the names in their struct tags. -/
inductive RequestField where
  | method | url | host | scheme | path | userAgent
deriving DecidableEq, Repr

def requestFields : List (String × RequestField) :=
  [("method", .method), ("url", .url), ("host", .host), ("scheme", .scheme), ("path", .path),
   ("user_agent", .userAgent)]

/-- The fields of `Event`, by the names in their struct tags. -/
inductive EventField where
  | type | timestamp | ip | action | reason | request
deriving DecidableEq, Repr

def eventFields : List (String × EventField) :=
  [("type", .type), ("timestamp", .timestamp), ("ip", .ip), ("action", .action),
   ("reason", .reason), ("request", .request)]

/-- The value of a member of a `Request` object: stored in the field the key
names, skipped when the key names no field. `depth` is the nesting depth of
the value. -/
def storeRequest (depth : Nat) (key : GoString) (r : Request) (inp : List Nat) :
    Option (Request × List Nat) :=
  match findField requestFields key with
  | none => (skipValue inp.length 0 depth inp).map fun rest => (r, rest)
  | some .method => (readStringField r.Method inp).map fun p => ({ r with Method := p.1 }, p.2)
  | some .url => (readStringField r.URL inp).map fun p => ({ r with URL := p.1 }, p.2)
  | some .host => (readStringField r.Host inp).map fun p => ({ r with Host := p.1 }, p.2)
  | some .scheme => (readStringField r.Scheme inp).map fun p => ({ r with Scheme := p.1 }, p.2)
  | some .path => (readStringField r.Path inp).map fun p => ({ r with Path := p.1 }, p.2)
  | some .userAgent =>
    (readStringField r.UserAgent inp).map fun p => ({ r with UserAgent := p.1 }, p.2)

/-- The zero value of `Request`. -/
def zeroRequest : Request :=
  { Method := [], URL := [], Host := [], Scheme := [], Path := [], UserAgent := [] }

/-- The value of the field `Request`: `null` sets the pointer to nil, an object
is read into the struct the pointer refers to, a new one when the pointer is
nil; any other value is an error. -/
def readRequestField (cur : Option Request) : List Nat → Option (Option Request × List Nat)
  | 0x6e :: 0x75 :: 0x6c :: 0x6c :: rest => some (none, rest)
  | 0x7b :: rest =>
    (parseObject (storeRequest 2) (cur.getD zeroRequest) rest).map fun p => (some p.1, p.2)
  | _ => none

/-- The value of a member of the `Event` object. -/
def storeEvent (env : Env) (key : GoString) (ev : Event) (inp : List Nat) :
    Option (Event × List Nat) :=
  match findField eventFields key with
  | none => (skipValue inp.length 0 1 inp).map fun rest => (ev, rest)
  | some .type => (readStringField ev.type inp).map fun p => ({ ev with type := p.1 }, p.2)
  | some .timestamp =>
    (readTimeField env ev.Timestamp inp).map fun p => ({ ev with Timestamp := p.1 }, p.2)
  | some .ip => (readStringField ev.IP inp).map fun p => ({ ev with IP := p.1 }, p.2)
  | some .action => (readStringField ev.Action inp).map fun p => ({ ev with Action := p.1 }, p.2)
  | some .reason => (readStringField ev.Reason inp).map fun p => ({ ev with Reason := p.1 }, p.2)
  | some .request =>
    (readRequestField ev.Request inp).map fun p => ({ ev with Request := p.1 }, p.2)

/-- The zero value of `Event`, the value of `var got Event`. -/
def zeroEvent : Event :=
  { type := [], Timestamp := { wall := 0, ext := 0, loc := none }, IP := [], Action := [],
    Reason := [], Request := none }

/-- The call `json.Unmarshal(data, &got)` on a zero `got`: the event read, or
`none` when the call returns an error. The input is one value with white space
around it; an object is read into the event, `null` leaves it as it is, and
any other value is an error. -/
def jsonUnmarshal (env : Env) (data : List Nat) : Option Event :=
  match skipSpace data with
  | 0x7b :: rest =>
    match parseObject (storeEvent env) zeroEvent rest with
    | none => none
    | some (ev, rest1) => if skipSpace rest1 = [] then some ev else none
  | 0x6e :: 0x75 :: 0x6c :: 0x6c :: rest => if skipSpace rest = [] then some zeroEvent else none
  | _ => none

/-- The function `utf8.Valid` (as a loop over `decodeRune`). -/
def validLoop : Nat → GoString → Bool
  | _, [] => true
  | 0, _ :: _ => false
  | fuel + 1, c :: rest =>
    if c < 0x80 then validLoop fuel rest
    else
      let (r, size) := decodeRune (c :: rest)
      if r = 0xFFFD ∧ size = 1 then false else validLoop fuel (rest.drop (size - 1))

/-- The function `utf8.Valid`. -/
def validUTF8 (s : GoString) : Bool := validLoop s.length s

/-! ## webhook.go: send and dispatch -/

/-- The request `send` builds once `http.NewRequestWithContext` has accepted
the endpoint: a POST with the body, `Content-Type` set, and the signature
header when the signing key is not empty. -/
def buildRequest (s : Service) (endpoint : GoString) (body : List Nat) : HttpRequest :=
  let h : Header := Header.Set [] (utf8 "Content-Type") (utf8 "application/json")
  let h := if s.signingKey ≠ [] then
      Header.Set h (utf8 "X-Signature-SHA256") (computeHMAC body s.signingKey)
    else h
  { method := utf8 "POST", url := endpoint, header := h, body := body, timeout := s.timeout }

/-- The method `Service.send`. -/
def send (env : Env) (s : Service) (endpoint : GoString) (body : List Nat) (w : World) : World :=
  if env.urlParse endpoint then
    let req := buildRequest s endpoint body
    match s.http.Do w.sent req with
    | .err _ =>
      { sent := w.sent ++ [req], log := w.log ++ [.error "webhook delivery error"] }
    | .resp statusCode =>
      if statusCode ≥ 400 then
        { sent := w.sent ++ [req], log := w.log ++ [.warn "webhook non-success response"] }
      else { sent := w.sent ++ [req], log := w.log }
  else { w with log := w.log ++ [.error "webhook request creation error"] }

/-- The loop of `dispatch` over the subscriptions. -/
def dispatchLoop (env : Env) (s : Service) (t : EventType) (body : List Nat) :
    List Subscription → World → World
  | [], w => w
  | sub :: subs, w =>
    if !sub.subscribedTo t then dispatchLoop env s t body subs w
    else dispatchLoop env s t body subs (send env s sub.URL body w)

/-- The method `Service.dispatch`. -/
def dispatch (env : Env) (s : Service) (event : Event) (w : World) : World :=
  match jsonMarshal env event with
  | none => { w with log := w.log ++ [.error "webhook marshal error"] }
  | some body => dispatchLoop env s event.type body s.subscriptions w

/-! ## webhook.go: New, Notify and Start -/

/-- The runtime's `makechan`: it panics (`none`) on a negative size and on a
size beyond what it can allocate; otherwise the channel is empty. -/
def makechan (env : Env) (size : Int) : Option Chan :=
  if size < 0 ∨ (env.chanLimit : Int) < size then none
  else some { cap := size.toNat, buf := [] }

/-- The function `New`; `none` when `make(chan Event, b)` panics. -/
def New (env : Env) (subscriptions : List Subscription) (signingKey : GoString)
    (timeout : Duration) (bufferSize : Int) (client : HTTPClient) : Option Service :=
  let t := if timeout = 0 then 5 * Second else timeout
  let b := if bufferSize = 0 then 100 else bufferSize
  (makechan env b).map fun c =>
    { subscriptions := subscriptions, signingKey := signingKey, http := client,
      timeout := t, events := c }

/-- A send that is one case of a `select` with a `default` case: it proceeds
only when the buffer has room. (A receiver blocked on the channel implies an
empty buffer, and handing it the event is this send followed by its receive.) -/
def Chan.trySend (c : Chan) (e : Event) : Option Chan :=
  if c.buf.length < c.cap then some { c with buf := c.buf ++ [e] } else none

/-- The method `Service.Notify`. -/
def Notify (s : Service) (event : Event) (w : World) : Service × World :=
  match s.events.trySend event with
  | some c => ({ s with events := c }, w)
  | none => (s, { w with log := w.log ++ [.warn "webhook event dropped, channel full"] })

/-- A sequence of `Notify` calls with no receive in between. -/
def notifyAll (s : Service) (w : World) : List Event → Service × World
  | [] => (s, w)
  | e :: es => notifyAll (Notify s e w).1 (Notify s e w).2 es

/-- A service together with the goroutine running `Start(ctx)`: whether `ctx`
is cancelled, whether `Start` has not yet returned, the effects so far, and
two histories kept for the statements: the events passed to `Notify` and the
events handed to `dispatch`. -/
structure System where
  svc : Service
  cancelled : Bool
  running : Bool
  world : World
  notified : List Event
  dispatched : List Event

/-- The moves of the system. The two `start` moves are the two cases of the
`select` in `Start`; when both are ready the runtime picks either. -/
inductive Op where
  | notify (e : Event)
  | cancel
  | startDone
  | startEvent
deriving DecidableEq, Repr

/-- The two cases of the `select` in `Start`. -/
inductive SelectCase where
  | done
  | event
deriving DecidableEq, Repr

/-- One iteration of the loop of the method `Service.Start`, for the case its
`select` takes; `none` when the case is not ready or `Start` has returned. The
case `<-ctx.Done()` is ready once the context is cancelled, and `Start`
returns; the case `event := <-s.events` is ready when an event is buffered,
and the event is handed to `dispatch`. -/
def Start (env : Env) (st : System) : SelectCase → Option System
  | .done =>
    if st.running && st.cancelled then some { st with running := false } else none
  | .event =>
    if st.running then
      match st.svc.events.buf with
      | [] => none
      | e :: rest =>
        some { st with svc := { st.svc with events := { st.svc.events with buf := rest } },
                       world := dispatch env st.svc e st.world,
                       dispatched := st.dispatched ++ [e] }
    else none

/-- One move; `none` when the move is not enabled. -/
def step (env : Env) (st : System) : Op → Option System
  | .notify e =>
    some { st with svc := (Notify st.svc e st.world).1, world := (Notify st.svc e st.world).2,
                   notified := st.notified ++ [e] }
  | .cancel => some { st with cancelled := true }
  | .startDone => Start env st .done
  | .startEvent => Start env st .event

/-- A schedule of moves, run from left to right. -/
def run (env : Env) : System → List Op → Option System
  | st, [] => some st
  | st, op :: ops =>
    match step env st op with
    | none => none
    | some st1 => run env st1 ops

/-- The system right after `New` returned and `Start` was launched. -/
def initial (svc : Service) : System :=
  { svc := svc, cancelled := false, running := true, world := { sent := [], log := [] },
    notified := [], dispatched := [] }

/-- The requests `dispatch` hands to the client for an event: they do not
depend on what the client answers. -/
def dispatchRequests (env : Env) (s : Service) (event : Event) : List HttpRequest :=
  match jsonMarshal env event with
  | none => []
  | some body =>
    (s.subscriptions.filter fun sub => sub.subscribedTo event.type && env.urlParse sub.URL).map
      fun sub => buildRequest s sub.URL body

/-! ## Sample values for the worked instances -/

/-- The first check of `url.Parse`: a URL with an ASCII control byte is
rejected. The rest of the parser is not modelled. -/
def noCTLByte (u : GoString) : Bool := u.all fun b => !(b < 0x20 || b == 0x7f)

/-- The timestamp `time.Date(2024, 1, 1, 0, 0, 0, 0, time.UTC)` of the tests. -/
def time2024 : Time := { wall := 0, ext := 63839664000, loc := none }

/-- The timestamp `time.Date(10000, 1, 1, 0, 0, 0, 0, time.UTC)`. -/
def time10000 : Time := { wall := 0, ext := 315537897600, loc := none }

/-- A value of `time.Now()` at the same instant, on a machine whose local zone
is UTC: the wall word carries the monotonic flag and the seconds since 1885,
the extended word is the monotonic clock reading, and the location is
`time.Local` (here the location number 1). -/
def timeNow2024 : Time := { wall := 2^63 + 4386355200 * 2^30, ext := 1000000, loc := some 1 }

/-- The text of `Time.MarshalJSON` on the sample timestamps: the zero time, the
timestamp of the tests and the value of `time.Now()` at the same instant, whose
monotonic reading is not written; the year 10000 is outside the range
`[0, 9999]` the method accepts. Other times are outside the sample. -/
def sampleTimeText (t : Time) : Option GoString :=
  if t = { wall := 0, ext := 0, loc := none } then some (utf8 "0001-01-01T00:00:00Z")
  else if t = time2024 ∨ t = timeNow2024 then some (utf8 "2024-01-01T00:00:00Z")
  else none

/-- The time `Time.UnmarshalJSON` reads from the two sample texts: a time in
UTC without monotonic reading. -/
def sampleTimeParse (ts : GoString) : Option Time :=
  if ts = utf8 "0001-01-01T00:00:00Z" then some { wall := 0, ext := 0, loc := none }
  else if ts = utf8 "2024-01-01T00:00:00Z" then some time2024
  else none

/-- A sample environment; the channel limit is the one of linux/amd64, where
the runtime allocates at most `2^48` bytes and an `Event` takes 96 bytes. -/
def sampleEnv : Env :=
  { urlParse := noCTLByte, timeText := sampleTimeText, timeParse := sampleTimeParse,
    timeText_ok := by
      intro t ts h
      unfold sampleTimeText at h
      split_ifs at h
      · cases h
        decide
      · cases h
        decide,
    chanLimit := (2^48 - 96) / 96 }

/-- A client whose every call fails. -/
def failingClient : HTTPClient := { Do := fun _ _ => .err (utf8 "connection refused") }

/-- A client that answers every request with status 500. -/
def status500Client : HTTPClient := { Do := fun _ _ => .resp 500 }

/-- The event of the test `sends event to subscribed endpoint`. -/
def sampleEvent : Event :=
  { type := EventRequestBlocked, Timestamp := time2024, IP := utf8 "1.2.3.4",
    Action := utf8 "ban", Reason := utf8 "crowdsecurity/ssh-bf", Request := none }

/-! ## Auxiliary definitions for the statements -/

/-- The body of the test `TestComputeHMAC`. -/
def testBody : List Nat := utf8 "\x7b\"type\":\"request_blocked\"\x7d"

/-- A lower-case hexadecimal digit: `0` to `9` or `a` to `f`. -/
def isLowerHex (c : Nat) : Bool := (0x30 ≤ c && c ≤ 0x39) || (0x61 ≤ c && c ≤ 0x66)

/-- A byte string of Go: every element is below 256. -/
def isByteString (s : List Nat) : Bool := s.all fun b => decide (b < 256)

/-- The signature read as a table of 64 entries below 128. -/
def sigTable (sig : GoString) : Fin 64 → Fin 128 :=
  fun i => ⟨sig.getD i.val 0 % 128, Nat.mod_lt _ (by decide)⟩

/-- The subscription of the test `sends event to subscribed endpoint`, with a
fixed URL in place of the address of the test server. -/
def sampleSub : Subscription :=
  { URL := utf8 "http://hook.example/a", Events := [EventRequestBlocked] }

/-- The value `New([]Subscription{sampleSub}, "", time.Second, 0, client)` with a
client whose calls fail. -/
def sampleSvc : Service :=
  { subscriptions := [sampleSub], signingKey := [], http := failingClient,
    timeout := Second, events := { cap := 100, buf := [] } }

/-- A service whose queue of capacity one is full. -/
def fullSvc : Service :=
  { subscriptions := [sampleSub], signingKey := [], http := failingClient,
    timeout := Second, events := { cap := 1, buf := [sampleEvent] } }

/-- The world before any effect. -/
def emptyWorld : World := { sent := [], log := [] }

/-- A subscription whose configured URL ends in a line feed. -/
def newlineSub : Subscription :=
  { URL := utf8 "http://hook.example/a\n", Events := [EventRequestBlocked] }

/-- A service with the subscription `newlineSub` followed by `sampleSub`. -/
def newlineSvc : Service :=
  { subscriptions := [newlineSub, sampleSub], signingKey := [], http := failingClient,
    timeout := Second, events := { cap := 100, buf := [] } }

/-- A service with the signing key `secret` of the tests. -/
def signingSvc : Service :=
  { subscriptions := [sampleSub], signingKey := utf8 "secret", http := status500Client,
    timeout := Second, events := { cap := 100, buf := [] } }

/-- An event whose timestamp `Time.MarshalJSON` rejects. -/
def year10000Event : Event :=
  { type := EventRequestBlocked, Timestamp := time10000, IP := utf8 "1.2.3.4",
    Action := utf8 "ban", Reason := utf8 "crowdsecurity/ssh-bf", Request := none }

/-- The subscriptions `dispatch` delivers an event type to: those whose list
of events contains the type and whose URL the request constructor accepts. -/
def delivered (env : Env) (s : Service) (t : EventType) : List Subscription :=
  s.subscriptions.filter fun sub => sub.subscribedTo t && env.urlParse sub.URL

/-- The events passed to `Notify` in a schedule, in order. -/
def notifiedOf : List Op → List Event
  | [] => []
  | .notify e :: ops => e :: notifiedOf ops
  | _ :: ops => notifiedOf ops

/-- The invariant of the system started on the service `svc`: the
configuration is the one of `svc`, the dispatched events followed by the queue
are a subsequence of the notified events, and the requests handed to the
client are those of the dispatched events, in order. -/
def Ordered (env : Env) (svc : Service) (st : System) : Prop :=
  st.svc.subscriptions = svc.subscriptions ∧ st.svc.signingKey = svc.signingKey
    ∧ st.svc.timeout = svc.timeout
    ∧ (st.dispatched ++ st.svc.events.buf).Sublist st.notified
    ∧ st.world.sent = st.dispatched.flatMap (dispatchRequests env svc)

/-- A second event, of another type. -/
def captchaEvent : Event :=
  { type := EventCaptchaRequired, Timestamp := time2024, IP := utf8 "5.6.7.8",
    Action := utf8 "captcha", Reason := utf8 "captcha required", Request := none }

/-! ## The members json.Marshal writes, each with what reading it back does -/

/-- A string member together with the update of the struct that reading the
member back performs. -/
def stringStep {σ : Type} (name : String) (set : GoString → σ → σ) (v : GoString) :
    List Nat × (σ → σ) :=
  (jsonMember name (jsonString v), set v)

/-- A string member tagged `omitempty`, with its update. -/
def optStep {σ : Type} (name : String) (set : GoString → σ → σ) (v : GoString) :
    List (List Nat × (σ → σ)) :=
  if v = [] then [] else [stringStep name set v]

/-- The members of the JSON text of a `Request`, with their updates. -/
def requestSteps (r : Request) : List (List Nat × (Request → Request)) :=
  optStep "method" (fun v x => { x with Method := v }) r.Method
    ++ optStep "url" (fun v x => { x with URL := v }) r.URL
    ++ optStep "host" (fun v x => { x with Host := v }) r.Host
    ++ optStep "scheme" (fun v x => { x with Scheme := v }) r.Scheme
    ++ optStep "path" (fun v x => { x with Path := v }) r.Path
    ++ optStep "user_agent" (fun v x => { x with UserAgent := v }) r.UserAgent

/-- The updates of a list of members, applied from left to right. -/
def applySteps {σ : Type} (steps : List (List Nat × (σ → σ))) (st : σ) : σ :=
  steps.foldl (fun s p => p.2 s) st

/-- The members of the JSON text of an event whose timestamp has the text
`ts`, with their updates. -/
def eventSteps (e : Event) (ts : GoString) : List (List Nat × (Event → Event)) :=
  [stringStep "type" (fun v x => { x with type := v }) e.type,
   (jsonMember "timestamp" ([0x22] ++ ts ++ [0x22]), fun x => { x with Timestamp := e.Timestamp }),
   stringStep "ip" (fun v x => { x with IP := v }) e.IP,
   stringStep "action" (fun v x => { x with Action := v }) e.Action,
   stringStep "reason" (fun v x => { x with Reason := v }) e.Reason]
  ++ (match e.Request with
      | none => []
      | some r =>
        [(jsonMember "request" (marshalRequest r), fun x =>
          let r1 := applySteps (requestSteps r) (x.Request.getD zeroRequest)
          { x with Request := some r1 })])

/-- The strings of a request are valid UTF-8. -/
def Request.validStrings (r : Request) : Bool :=
  validUTF8 r.Method && validUTF8 r.URL && validUTF8 r.Host && validUTF8 r.Scheme
    && validUTF8 r.Path && validUTF8 r.UserAgent

/-- The strings of an event, those of its request included, are valid UTF-8. -/
def Event.validStrings (e : Event) : Bool :=
  validUTF8 e.type && validUTF8 e.IP && validUTF8 e.Action && validUTF8 e.Reason
    && (match e.Request with
        | none => true
        | some r => r.validStrings)


/-- An event whose `IP` is the single byte `0xff`, which is not valid UTF-8. -/
def invalidIPEvent : Event :=
  { type := EventRequestBlocked, Timestamp := time2024, IP := [0xff],
    Action := utf8 "ban", Reason := utf8 "crowdsecurity/ssh-bf", Request := none }

/-- The event `invalidIPEvent` with `U+FFFD` in place of the invalid byte. -/
def replacedIPEvent : Event :=
  { type := EventRequestBlocked, Timestamp := time2024, IP := [0xEF, 0xBF, 0xBD],
    Action := utf8 "ban", Reason := utf8 "crowdsecurity/ssh-bf", Request := none }

/-- An event stamped with `time.Now()`. -/
def nowEvent : Event :=
  { type := EventRequestAllowed, Timestamp := timeNow2024, IP := utf8 "1.2.3.4",
    Action := utf8 "allow", Reason := utf8 "ok", Request := none }

/-- The event `nowEvent` with the timestamp that `Time.UnmarshalJSON` reads. -/
def nowEventRead : Event :=
  { type := EventRequestAllowed, Timestamp := time2024, IP := utf8 "1.2.3.4",
    Action := utf8 "allow", Reason := utf8 "ok", Request := none }

/-- An event with a request, one of whose fields is empty. -/
def requestEvent : Event :=
  { type := EventCaptchaRequired, Timestamp := time2024, IP := utf8 "5.6.7.8",
    Action := utf8 "captcha", Reason := utf8 "captcha required",
    Request := some { Method := utf8 "GET", URL := utf8 "http://shop.example/a?b=<c>&d",
                      Host := utf8 "shop.example", Scheme := utf8 "http", Path := utf8 "/a",
                      UserAgent := [] } }

/-- The five members of the payload of an event without request, for a
timestamp whose text is `ts`. -/
def membersWithoutRequest (e : Event) (ts : GoString) : List (List Nat) :=
  [jsonMember "type" (jsonString e.type), jsonMember "timestamp" ([0x22] ++ ts ++ [0x22]),
   jsonMember "ip" (jsonString e.IP), jsonMember "action" (jsonString e.Action),
   jsonMember "reason" (jsonString e.Reason)]

/-! ## Known answers for the library models -/

theorem sha256_abc :
    hexEncodeToString (sha256 (utf8 "abc"))
      = utf8 "ba7816bf8f01cfea414140de5dae2223b00361a396177a9cb410ff61f20015ad" := by
  decide!

theorem sha256_two_blocks :
    hexEncodeToString (sha256 (utf8 "abcdbcdecdefdefgefghfghighijhijkijkljklmklmnlmnomnopnopq"))
      = utf8 "248d6a61d20638b8e5c026930c3e6039a33ce45964ff2167f6ecedd419db06c1" := by
  decide!

/-- RFC 4231, test case 2. -/
theorem hmac_rfc4231_case2 :
    computeHMAC (utf8 "what do ya want for nothing?") (utf8 "Jefe")
      = utf8 "5bdcc146bf60754e6a042426089575c75a003f089d2739839dec58b964ec3843" := by
  decide!

/-- RFC 4231, test case 6: a key longer than the block size. -/
theorem hmac_rfc4231_case6 :
    computeHMAC (utf8 "Test Using Larger Than Block-Size Key - Hash Key First")
        (List.replicate 131 0xaa)
      = utf8 "60e431591ee0b67f0d8a26aacbf5b77f8e0bc6213728c5140546040f0ee37f54" := by
  decide!


/-! ## computeHMAC: shape of the signature -/

theorem sha256_length (msg : List Nat) : (sha256 msg).length = 32 := by
  simp [sha256, word4]

theorem hmacSHA256_length (key msg : List Nat) : (hmacSHA256 key msg).length = 32 := by
  unfold hmacSHA256
  exact sha256_length _

theorem hextable_getD_isLowerHex (i : Nat) (h : i < 16) :
    isLowerHex (hextable.getD i 0) = true := by
  interval_cases i <;> decide

theorem hexEncodeToString_length (src : List Nat) :
    (hexEncodeToString src).length = 2 * src.length := by
  induction src with
  | nil => rfl
  | cons v vs ih =>
    have hcons : hexEncodeToString (v :: vs)
        = [hextable.getD (v % 256 / 16) 0, hextable.getD (v % 16) 0] ++ hexEncodeToString vs := by
      simp [hexEncodeToString]
    rw [hcons, List.length_append, ih]
    simp only [List.length_cons, List.length_nil]
    omega

theorem hexEncodeToString_all_hex (src : List Nat) :
    (hexEncodeToString src).all isLowerHex = true := by
  induction src with
  | nil => rfl
  | cons v vs ih =>
    have hcons : hexEncodeToString (v :: vs)
        = [hextable.getD (v % 256 / 16) 0, hextable.getD (v % 16) 0] ++ hexEncodeToString vs := by
      simp [hexEncodeToString]
    rw [hcons, List.all_append, ih]
    have h1 := hextable_getD_isLowerHex (v % 256 / 16) (by omega)
    have h2 := hextable_getD_isLowerHex (v % 16) (by omega)
    simp only [List.all_cons, List.all_nil, h1, h2, Bool.and_self]

theorem computeHMAC_length (body : List Nat) (key : GoString) :
    (computeHMAC body key).length = 64 := by
  unfold computeHMAC
  rw [hexEncodeToString_length, hmacSHA256_length]

theorem computeHMAC_all_hex (body : List Nat) (key : GoString) :
    (computeHMAC body key).all isLowerHex = true :=
  hexEncodeToString_all_hex _

/-- C4. `computeHMAC` is a function of its two arguments (two evaluations on
the same body and key agree), and for every body and key, the empty ones
included, its result has exactly 64 characters, each a lower-case hexadecimal
digit: it is the hex encoding of a 32-byte tag. -/
theorem computeHMAC_deterministic_64_hex (body : List Nat) (key : GoString) :
    computeHMAC body key = computeHMAC body key
      ∧ (hmacSHA256 key body).length = 32
      ∧ (computeHMAC body key).length = 64
      ∧ (computeHMAC body key).all isLowerHex = true
      ∧ (computeHMAC [] []).length = 64 := by
  exact ⟨rfl, hmacSHA256_length key body, computeHMAC_length body key,
    computeHMAC_all_hex body key, computeHMAC_length [] []⟩

/-! ## computeHMAC: dependence on the key and on the body -/

theorem hmacKeyBlock_append_zero (key : List Nat) (h : key.length < 64) :
    hmacKeyBlock (key ++ [0]) = hmacKeyBlock key := by
  have h1 : ¬ (key ++ [0]).length > 64 := by
    rw [List.length_append]
    simp only [List.length_cons, List.length_nil]
    omega
  have h2 : ¬ key.length > 64 := by omega
  have h3 : 64 - key.length = (64 - (key.length + 1)) + 1 := by omega
  unfold hmacKeyBlock
  simp only [if_neg h1, if_neg h2]
  rw [h3, List.replicate_succ, List.length_append]
  simp only [List.length_cons, List.length_nil, List.append_assoc, List.singleton_append]

theorem computeHMAC_of_keyBlock (body k1 k2 : List Nat) (h : hmacKeyBlock k1 = hmacKeyBlock k2) :
    computeHMAC body k1 = computeHMAC body k2 := by
  simp only [computeHMAC, hmacSHA256, h]

theorem isLowerHex_lt (c : Nat) (h : isLowerHex c = true) : c < 128 := by
  simp [isLowerHex] at h
  omega

theorem sigTable_injective (s1 s2 : GoString) (l1 : s1.length = 64) (l2 : s2.length = 64)
    (a1 : s1.all isLowerHex = true) (a2 : s2.all isLowerHex = true)
    (h : sigTable s1 = sigTable s2) : s1 = s2 := by
  apply List.ext_getElem (by rw [l1, l2])
  intro i hi1 hi2
  have hi : i < 64 := by rw [l1] at hi1; exact hi1
  have e := congrFun h ⟨i, hi⟩
  simp only [sigTable, Fin.mk.injEq] at e
  rw [List.getD_eq_getElem _ _ hi1, List.getD_eq_getElem _ _ hi2] at e
  have b1 : s1[i] < 128 := isLowerHex_lt _ (List.all_eq_true.mp a1 _ (List.getElem_mem hi1))
  have b2 : s2[i] < 128 := isLowerHex_lt _ (List.all_eq_true.mp a2 _ (List.getElem_mem hi2))
  rw [Nat.mod_eq_of_lt b1, Nat.mod_eq_of_lt b2] at e
  exact e

theorem isByteString_replicate_zero (n : Nat) : isByteString (List.replicate n 0) = true := by
  unfold isByteString
  rw [List.all_eq_true]
  intro x hx
  rw [List.eq_of_mem_replicate hx]
  decide

theorem computeHMAC_not_injective_in_body (key : GoString) :
    ∃ b1 b2 : List Nat, isByteString b1 = true ∧ isByteString b2 = true ∧ b1 ≠ b2
      ∧ computeHMAC b1 key = computeHMAC b2 key := by
  by_contra hne
  have hinj : Function.Injective
      (fun n : Nat => sigTable (computeHMAC (List.replicate n 0) key)) := by
    intro n m hb
    by_contra hnm
    apply hne
    refine ⟨List.replicate n 0, List.replicate m 0, isByteString_replicate_zero n,
      isByteString_replicate_zero m, ?_, ?_⟩
    · intro heq
      apply hnm
      have hl := congrArg List.length heq
      simpa using hl
    · exact sigTable_injective _ _ (computeHMAC_length _ key) (computeHMAC_length _ key)
        (computeHMAC_all_hex _ key) (computeHMAC_all_hex _ key) hb
  have hfin : Finite Nat := Finite.of_injective _ hinj
  exact not_finite Nat

theorem computeHMAC_append_zero (body key : List Nat) (h : key.length < 64) :
    computeHMAC body (key ++ [0]) = computeHMAC body key :=
  computeHMAC_of_keyBlock body _ _ (hmacKeyBlock_append_zero key h)

/-- C5, refuted as stated: the keys `key1` and `key1` followed by a zero byte
are distinct, and the signatures of the test body under them are equal. -/
theorem computeHMAC_distinct_keys_same_signature :
    utf8 "key1" ≠ utf8 "key1" ++ [0]
      ∧ computeHMAC testBody (utf8 "key1") = computeHMAC testBody (utf8 "key1" ++ [0]) :=
  ⟨by decide, (computeHMAC_append_zero testBody (utf8 "key1") (by decide)).symm⟩

/-- C5, amended. The signature depends on the key only through the 64-byte key
block of HMAC: keys with the same key block give the same signature for every
body, and a key shorter than 64 bytes has the same key block as that key
followed by a zero byte. For every key there are two distinct byte strings
(every element below 256, so two different bodies of the program) with the
same signature. On the inputs of the test of the package (the body
`{"type":"request_blocked"}` with the keys `key1` and `key2`) the signatures
differ. -/
theorem computeHMAC_key_block_and_collisions :
    (∀ body k1 k2 : List Nat, hmacKeyBlock k1 = hmacKeyBlock k2 →
        computeHMAC body k1 = computeHMAC body k2)
      ∧ (∀ body key : List Nat, key.length < 64 →
        hmacKeyBlock (key ++ [0]) = hmacKeyBlock key
          ∧ computeHMAC body (key ++ [0]) = computeHMAC body key)
      ∧ (∀ key : List Nat, ∃ b1 b2 : List Nat, isByteString b1 = true ∧ isByteString b2 = true
          ∧ b1 ≠ b2 ∧ computeHMAC b1 key = computeHMAC b2 key)
      ∧ computeHMAC testBody (utf8 "key1") ≠ computeHMAC testBody (utf8 "key2") :=
  ⟨computeHMAC_of_keyBlock,
   fun body key h => ⟨hmacKeyBlock_append_zero key h, computeHMAC_append_zero body key h⟩,
   computeHMAC_not_injective_in_body,
   by decide!⟩

/-- C5, amended, at the key `secret` of the tests and the empty body. -/
theorem computeHMAC_key_block_and_collisions_witness :
    (utf8 "secret").length < 64
      ∧ computeHMAC [] (utf8 "secret" ++ [0]) = computeHMAC [] (utf8 "secret") :=
  ⟨by decide, (computeHMAC_key_block_and_collisions.2.1 [] (utf8 "secret") (by decide)).2⟩

/-! ## New -/

theorem New_eq_some (env : Env) (subs : List Subscription) (key : GoString)
    (timeout : Duration) (bufferSize : Int) (client : HTTPClient)
    (h0 : 0 ≤ bufferSize)
    (hl : (if bufferSize = 0 then 100 else bufferSize) ≤ (env.chanLimit : Int)) :
    New env subs key timeout bufferSize client
      = some { subscriptions := subs, signingKey := key, http := client,
               timeout := if timeout = 0 then 5 * Second else timeout,
               events := { cap := (if bufferSize = 0 then 100 else bufferSize).toNat,
                           buf := [] } } := by
  have hb : ¬ ((if bufferSize = 0 then 100 else bufferSize) < 0
      ∨ (env.chanLimit : Int) < (if bufferSize = 0 then 100 else bufferSize)) := by
    split_ifs at hl ⊢ <;> omega
  simp only [New, makechan, if_neg hb, Option.map_some']

theorem New_eq_none (env : Env) (subs : List Subscription) (key : GoString)
    (timeout : Duration) (bufferSize : Int) (client : HTTPClient)
    (h : bufferSize < 0 ∨ (env.chanLimit : Int) < (if bufferSize = 0 then 100 else bufferSize)) :
    New env subs key timeout bufferSize client = none := by
  have hb : (if bufferSize = 0 then 100 else bufferSize) < 0
      ∨ (env.chanLimit : Int) < (if bufferSize = 0 then 100 else bufferSize) := by
    rcases h with h | h
    · left
      split_ifs <;> omega
    · right
      exact h
  simp only [New, makechan, if_pos hb, Option.map_none']

theorem New_events (env : Env) (subs : List Subscription) (key : GoString)
    (timeout : Duration) (bufferSize : Int) (client : HTTPClient) (svc : Service)
    (h : New env subs key timeout bufferSize client = some svc) :
    svc.events.buf = [] ∧ 0 < svc.events.cap := by
  by_cases hb : bufferSize < 0
      ∨ (env.chanLimit : Int) < (if bufferSize = 0 then 100 else bufferSize)
  · rw [New_eq_none env subs key timeout bufferSize client hb] at h
    exact absurd h (by simp)
  · have h0 : 0 ≤ bufferSize := by omega
    have hl : (if bufferSize = 0 then 100 else bufferSize) ≤ (env.chanLimit : Int) := by omega
    rw [New_eq_some env subs key timeout bufferSize client h0 hl] at h
    have hs := (Option.some.inj h).symm
    subst hs
    refine ⟨rfl, ?_⟩
    show 0 < (if bufferSize = 0 then 100 else bufferSize).toNat
    split_ifs <;> omega

/-- C6, refuted as stated: with the buffer size -1, and with the buffer size
`2^62`, the call `make(chan Event, b)` panics and `New` returns no service. -/
theorem New_negative_bufferSize_panics :
    (New sampleEnv [sampleSub] [] Second (-1) failingClient).isNone = true
      ∧ (New sampleEnv [sampleSub] [] Second (2^62) failingClient).isNone = true := by
  constructor <;> rfl

/-- C6, amended. For a buffer size that is not negative and that the runtime
can allocate, `New` returns a service whose timeout is 5 seconds if the given
timeout is 0 and the given timeout otherwise, whose queue is empty with
capacity 100 if the given buffer size is 0 and the given buffer size
otherwise, and whose subscriptions, signing key and client are the given ones.
For any other buffer size `New` panics. -/
theorem New_defaults (env : Env) (subs : List Subscription) (key : GoString)
    (timeout : Duration) (bufferSize : Int) (client : HTTPClient) :
    (0 ≤ bufferSize → (if bufferSize = 0 then 100 else bufferSize) ≤ (env.chanLimit : Int) →
      ∃ svc, New env subs key timeout bufferSize client = some svc
        ∧ svc.subscriptions = subs ∧ svc.signingKey = key ∧ svc.http = client
        ∧ (timeout = 0 → svc.timeout = 5 * Second)
        ∧ (timeout ≠ 0 → svc.timeout = timeout)
        ∧ svc.events.buf = []
        ∧ (bufferSize = 0 → svc.events.cap = 100)
        ∧ (bufferSize ≠ 0 → (svc.events.cap : Int) = bufferSize))
      ∧ (bufferSize < 0 ∨ (env.chanLimit : Int) < (if bufferSize = 0 then 100 else bufferSize) →
        New env subs key timeout bufferSize client = none) := by
  refine ⟨fun h0 hl => ⟨_, New_eq_some env subs key timeout bufferSize client h0 hl,
    rfl, rfl, rfl, ?_, ?_, rfl, ?_, ?_⟩, New_eq_none env subs key timeout bufferSize client⟩
  · intro ht
    simp [ht]
  · intro ht
    simp [ht]
  · intro hb
    simp [hb]
  · intro hb
    simp only [if_neg hb]
    omega

/-- C6, amended, at the arguments of the tests (`time.Second`, buffer size 0)
and at the timeout 0 with the buffer size 7. -/
theorem New_defaults_witness :
    (∃ svc, New sampleEnv [sampleSub] [] Second 0 failingClient = some svc
        ∧ svc.timeout = Second ∧ svc.events.buf = [] ∧ svc.events.cap = 100)
      ∧ (∃ svc, New sampleEnv [sampleSub] [] 0 7 failingClient = some svc
        ∧ svc.timeout = 5 * Second ∧ svc.events.buf = [] ∧ (svc.events.cap : Int) = 7) := by
  constructor
  · obtain ⟨svc, h, _, _, _, _, ht, hb, hc, _⟩ :=
      (New_defaults sampleEnv [sampleSub] [] Second 0 failingClient).1 (by decide) (by decide)
    exact ⟨svc, h, ht (by decide), hb, hc rfl⟩
  · obtain ⟨svc, h, _, _, _, ht, _, hb, _, hc⟩ :=
      (New_defaults sampleEnv [sampleSub] [] 0 7 failingClient).1 (by decide) (by decide)
    exact ⟨svc, h, ht rfl, hb, hc (by decide)⟩

/-! ## Notify and the bounded queue -/

theorem Notify_full (s : Service) (e : Event) (w : World)
    (h : s.events.cap ≤ s.events.buf.length) :
    Notify s e w
      = (s, { w with log := w.log ++ [.warn "webhook event dropped, channel full"] }) := by
  have hn : ¬ s.events.buf.length < s.events.cap := by omega
  simp only [Notify, Chan.trySend, if_neg hn]

theorem Notify_room (s : Service) (e : Event) (w : World)
    (h : s.events.buf.length < s.events.cap) :
    Notify s e w = ({ s with events := { s.events with buf := s.events.buf ++ [e] } }, w) := by
  simp only [Notify, Chan.trySend, if_pos h]

theorem Notify_cap (s : Service) (e : Event) (w : World) :
    (Notify s e w).1.events.cap = s.events.cap := by
  by_cases h : s.events.buf.length < s.events.cap
  · rw [Notify_room s e w h]
  · rw [Notify_full s e w (by omega)]

theorem Notify_length_le (s : Service) (e : Event) (w : World)
    (h : s.events.buf.length ≤ s.events.cap) :
    (Notify s e w).1.events.buf.length ≤ s.events.cap := by
  by_cases hr : s.events.buf.length < s.events.cap
  · rw [Notify_room s e w hr]
    simp only [List.length_append, List.length_cons, List.length_nil]
    omega
  · rw [Notify_full s e w (by omega)]
    exact h

theorem notifyAll_bounded (es : List Event) (s : Service) (w : World)
    (h : s.events.buf.length ≤ s.events.cap) :
    (notifyAll s w es).1.events.cap = s.events.cap
      ∧ (notifyAll s w es).1.events.buf.length ≤ s.events.cap := by
  induction es generalizing s w with
  | nil => exact ⟨rfl, h⟩
  | cons e es ih =>
    have hc := Notify_cap s e w
    have hl := Notify_length_le s e w h
    have := ih (Notify s e w).1 (Notify s e w).2 (by rw [hc]; exact hl)
    rw [hc] at this
    exact this

theorem step_bounded (env : Env) (st st1 : System) (op : Op)
    (h : st.svc.events.buf.length ≤ st.svc.events.cap) (hs : step env st op = some st1) :
    st1.svc.events.cap = st.svc.events.cap
      ∧ st1.svc.events.buf.length ≤ st.svc.events.cap := by
  cases op with
  | notify e =>
    simp only [step, Option.some.injEq] at hs
    subst hs
    exact ⟨Notify_cap _ _ _, Notify_length_le _ _ _ h⟩
  | cancel =>
    simp only [step, Option.some.injEq] at hs
    subst hs
    exact ⟨rfl, h⟩
  | startDone =>
    simp only [step, Start] at hs
    split at hs
    · simp only [Option.some.injEq] at hs
      subst hs
      exact ⟨rfl, h⟩
    · exact absurd hs (by simp)
  | startEvent =>
    simp only [step, Start] at hs
    split at hs
    · split at hs
      · exact absurd hs (by simp)
      · rename_i e rest hbuf
        simp only [Option.some.injEq] at hs
        subst hs
        refine ⟨rfl, ?_⟩
        rw [hbuf] at h
        simp only [List.length_cons] at h
        show rest.length ≤ st.svc.events.cap
        omega
    · exact absurd hs (by simp)

theorem run_bounded (env : Env) (ops : List Op) (st st1 : System)
    (h : st.svc.events.buf.length ≤ st.svc.events.cap) (hr : run env st ops = some st1) :
    st1.svc.events.cap = st.svc.events.cap
      ∧ st1.svc.events.buf.length ≤ st.svc.events.cap := by
  induction ops generalizing st with
  | nil =>
    simp only [run, Option.some.injEq] at hr
    subst hr
    exact ⟨rfl, h⟩
  | cons op ops ih =>
    simp only [run] at hr
    split at hr
    · exact absurd hr (by simp)
    · rename_i st2 hstep
      have h2 := step_bounded env st st2 op h hstep
      have h3 := ih st2 (by rw [h2.1]; exact h2.2) hr
      rw [h2.1] at h3
      exact h3

/-- C1. `Notify` is a total function (it returns on every input). If the queue
of a service (its capacity is positive, as `New` makes it) holds capacity-many
events, `Notify` returns the service unchanged and records a warning: the
event is dropped. If the queue holds fewer, `Notify` returns
the service with the event appended at the tail of the queue, every earlier
entry and the world unchanged. For a service returned by `New`, after any
sequence of `Notify` calls, and after any schedule that interleaves them with
the moves of `Start`, the capacity is the one fixed by `New` and the queue
length does not exceed it. -/
theorem Notify_never_blocks_bounded_queue :
    (∀ (s : Service) (e : Event) (w : World), 0 < s.events.cap →
        s.events.buf.length = s.events.cap →
        (Notify s e w).1 = s
          ∧ (Notify s e w).2.log = w.log ++ [.warn "webhook event dropped, channel full"])
      ∧ (∀ (s : Service) (e : Event) (w : World), s.events.buf.length ≤ s.events.cap →
        s.events.buf.length ≠ s.events.cap →
        (Notify s e w).1 = { s with events := { s.events with buf := s.events.buf ++ [e] } }
          ∧ (Notify s e w).2 = w)
      ∧ (∀ (env : Env) (subs : List Subscription) (key : GoString) (timeout : Duration)
          (bufferSize : Int) (client : HTTPClient) (svc : Service),
        New env subs key timeout bufferSize client = some svc →
        0 < svc.events.cap ∧ svc.events.buf.length ≤ svc.events.cap
          ∧ (∀ (es : List Event) (w : World),
              (notifyAll svc w es).1.events.cap = svc.events.cap
                ∧ (notifyAll svc w es).1.events.buf.length ≤ svc.events.cap)
          ∧ (∀ (ops : List Op) (st : System), run env (initial svc) ops = some st →
              st.svc.events.cap = svc.events.cap
                ∧ st.svc.events.buf.length ≤ svc.events.cap)) := by
  refine ⟨?_, ?_, ?_⟩
  · intro s e w _ h
    rw [Notify_full s e w (by omega)]
    exact ⟨rfl, rfl⟩
  · intro s e w hle hne
    rw [Notify_room s e w (by omega)]
    exact ⟨rfl, rfl⟩
  · intro env subs key timeout bufferSize client svc hnew
    have hb := (New_events env subs key timeout bufferSize client svc hnew).1
    have hpos := (New_events env subs key timeout bufferSize client svc hnew).2
    have hle : svc.events.buf.length ≤ svc.events.cap := by
      rw [hb]
      exact Nat.zero_le _
    exact ⟨hpos, hle, fun es w => notifyAll_bounded es svc w hle,
      fun ops st hr => run_bounded env ops (initial svc) st hle hr⟩

/-- C1 at a full queue of capacity one, at the empty queue of the service of
the tests, and at two `Notify` calls on a service that `New` built with buffer
size 1. -/
theorem Notify_never_blocks_bounded_queue_witness :
    (Notify fullSvc sampleEvent emptyWorld).1 = fullSvc
      ∧ (Notify sampleSvc sampleEvent emptyWorld).1.events.buf = [sampleEvent]
      ∧ (∃ svc, New sampleEnv [sampleSub] [] Second 1 failingClient = some svc
          ∧ (notifyAll svc emptyWorld [sampleEvent, sampleEvent]).1.events.buf.length ≤ 1) := by
  refine ⟨(Notify_never_blocks_bounded_queue.1 fullSvc sampleEvent emptyWorld (by decide)
    rfl).1, ?_, ?_⟩
  · rw [(Notify_never_blocks_bounded_queue.2.1 sampleSvc sampleEvent emptyWorld
      (by decide) (by decide)).1]
    rfl
  · exact ⟨_, rfl, ((Notify_never_blocks_bounded_queue.2.2 sampleEnv [sampleSub] [] Second 1
      failingClient _ rfl).2.2.1 [sampleEvent, sampleEvent] emptyWorld).2⟩

/-! ## send and dispatch -/

theorem send_sent (env : Env) (s : Service) (endpoint : GoString) (body : List Nat) (w : World) :
    (send env s endpoint body w).sent
      = w.sent ++ (if env.urlParse endpoint then [buildRequest s endpoint body] else []) := by
  unfold send
  by_cases h : env.urlParse endpoint = true
  · simp only [h, if_true]
    split
    · rfl
    · split <;> rfl
  · simp only [h, Bool.false_eq_true, if_false, List.append_nil]

theorem dispatchLoop_sent (env : Env) (s : Service) (t : EventType) (body : List Nat)
    (subs : List Subscription) (w : World) :
    (dispatchLoop env s t body subs w).sent
      = w.sent ++ (subs.filter fun sub => sub.subscribedTo t && env.urlParse sub.URL).map
          fun sub => buildRequest s sub.URL body := by
  induction subs generalizing w with
  | nil => simp [dispatchLoop]
  | cons sub subs ih =>
    unfold dispatchLoop
    by_cases hsub : sub.subscribedTo t = true
    · simp only [hsub, Bool.not_true, Bool.false_eq_true, if_false]
      rw [ih, send_sent]
      by_cases hu : env.urlParse sub.URL = true
      · simp [List.filter_cons, hsub, hu]
      · simp [List.filter_cons, hsub, hu]
    · simp only [hsub, Bool.not_false, if_true]
      rw [ih]
      simp [List.filter_cons, hsub]

theorem dispatch_sent (env : Env) (s : Service) (event : Event) (w : World) :
    (dispatch env s event w).sent = w.sent ++ dispatchRequests env s event := by
  unfold dispatch dispatchRequests
  cases jsonMarshal env event with
  | none => simp
  | some body => exact dispatchLoop_sent env s event.type body s.subscriptions w

theorem canonical_content_type :
    CanonicalMIMEHeaderKey (utf8 "Content-Type") = utf8 "Content-Type" := by decide

theorem canonical_signature :
    CanonicalMIMEHeaderKey (utf8 "X-Signature-SHA256") = utf8 "X-Signature-Sha256" := by decide

theorem buildRequest_unsigned (s : Service) (endpoint : GoString) (body : List Nat)
    (h : s.signingKey = []) :
    buildRequest s endpoint body
      = { method := utf8 "POST", url := endpoint,
          header := [(utf8 "Content-Type", [utf8 "application/json"])],
          body := body, timeout := s.timeout } := by
  unfold buildRequest
  simp only [h, ne_eq, not_true_eq_false, if_false]
  rfl

theorem buildRequest_signed (s : Service) (endpoint : GoString) (body : List Nat)
    (h : s.signingKey ≠ []) :
    buildRequest s endpoint body
      = { method := utf8 "POST", url := endpoint,
          header := [(utf8 "Content-Type", [utf8 "application/json"]),
                     (utf8 "X-Signature-Sha256", [computeHMAC body s.signingKey])],
          body := body, timeout := s.timeout } := by
  unfold buildRequest
  simp only [h, ne_eq, not_false_eq_true, if_true]
  rfl

theorem buildRequest_basics (s : Service) (endpoint : GoString) (body : List Nat) :
    (buildRequest s endpoint body).method = utf8 "POST"
      ∧ (buildRequest s endpoint body).url = endpoint
      ∧ (buildRequest s endpoint body).body = body
      ∧ (buildRequest s endpoint body).header.Values (utf8 "Content-Type")
          = some [utf8 "application/json"] := by
  by_cases h : s.signingKey = []
  · rw [buildRequest_unsigned s endpoint body h]
    exact ⟨rfl, rfl, rfl, rfl⟩
  · rw [buildRequest_signed s endpoint body h]
    exact ⟨rfl, rfl, rfl, rfl⟩

theorem mem_delivered (env : Env) (s : Service) (t : EventType) (sub : Subscription) :
    sub ∈ delivered env s t
      ↔ sub ∈ s.subscriptions ∧ sub.Events.contains t = true ∧ env.urlParse sub.URL = true := by
  simp [delivered, Subscription.subscribedTo]

/-- C2, refuted as stated: the event serialises, both subscriptions of the
service list its type, the URL of the first ends in a line feed, and
`dispatch` issues a single request, to the second subscription. -/
theorem dispatch_skips_rejected_url :
    (jsonMarshal sampleEnv sampleEvent).isSome = true
      ∧ newlineSvc.subscriptions.map (fun sub => sub.subscribedTo sampleEvent.type) = [true, true]
      ∧ (dispatch sampleEnv newlineSvc sampleEvent emptyWorld).sent.map (fun r => r.url)
          = [sampleSub.URL] := by
  decide!

/-- C2, amended. For every event whose serialisation succeeds, every service
(so every subscription list and every client, whatever it answers) and every
world, `dispatch` issues exactly one request per subscription whose list of
events contains the type of the event and whose URL the request constructor
accepts, in the order of the subscription list, and no other request. Each
request is a POST to the URL of its subscription with `Content-Type:
application/json` and the serialised body. A subscription to
`captcha_required` alone gets no request for a `request_blocked` event, and
the other way round. -/
theorem dispatch_one_request_per_subscription (env : Env) (s : Service) (event : Event)
    (w : World) (body : List Nat) (h : jsonMarshal env event = some body) :
    (dispatch env s event w).sent
        = w.sent ++ (delivered env s event.type).map (fun sub => buildRequest s sub.URL body)
      ∧ (delivered env s event.type).Sublist s.subscriptions
      ∧ (∀ sub, sub ∈ delivered env s event.type
          ↔ sub ∈ s.subscriptions ∧ sub.Events.contains event.type = true
              ∧ env.urlParse sub.URL = true)
      ∧ (∀ sub : Subscription, (buildRequest s sub.URL body).method = utf8 "POST"
          ∧ (buildRequest s sub.URL body).url = sub.URL
          ∧ (buildRequest s sub.URL body).body = body
          ∧ (buildRequest s sub.URL body).header.Values (utf8 "Content-Type")
              = some [utf8 "application/json"])
      ∧ (∀ sub : Subscription, sub.Events = [EventCaptchaRequired] →
          event.type = EventRequestBlocked → sub ∉ delivered env s event.type)
      ∧ (∀ sub : Subscription, sub.Events = [EventRequestBlocked] →
          event.type = EventCaptchaRequired → sub ∉ delivered env s event.type) := by
  refine ⟨?_, List.filter_sublist _, mem_delivered env s event.type,
    fun sub => buildRequest_basics s sub.URL body, ?_, ?_⟩
  · rw [dispatch_sent]
    simp only [dispatchRequests, h, delivered]
  · intro sub hev ht hmem
    have hc := ((mem_delivered env s event.type sub).mp hmem).2.1
    rw [hev, ht] at hc
    exact absurd hc (by decide)
  · intro sub hev ht hmem
    have hc := ((mem_delivered env s event.type sub).mp hmem).2.1
    rw [hev, ht] at hc
    exact absurd hc (by decide)

/-- C2, amended, at the event of the tests, its serialisation and a service
whose client fails every call. -/
theorem dispatch_one_request_per_subscription_witness :
    (dispatch sampleEnv sampleSvc sampleEvent emptyWorld).sent
      = [buildRequest sampleSvc sampleSub.URL
          (utf8 "\x7b\"type\":\"request_blocked\",\"timestamp\":\"2024-01-01T00:00:00Z\",\"ip\":\"1.2.3.4\",\"action\":\"ban\",\"reason\":\"crowdsecurity/ssh-bf\"\x7d")] :=
  (dispatch_one_request_per_subscription sampleEnv sampleSvc sampleEvent emptyWorld _
    (by decide!)).1

/-- C3. `send` hands the client the request `buildRequest` or, when the request
constructor rejects the endpoint, no request. In every request built, the body
is the given body, the header `X-Signature-SHA256` is present if and only if
the signing key is not empty, and when present its single value is
`computeHMAC` of the body of the request under the signing key. -/
theorem send_signature_header (env : Env) (s : Service) (endpoint : GoString)
    (body : List Nat) (w : World) :
    (send env s endpoint body w).sent
        = w.sent ++ (if env.urlParse endpoint then [buildRequest s endpoint body] else [])
      ∧ (buildRequest s endpoint body).body = body
      ∧ (((buildRequest s endpoint body).header.Values (utf8 "X-Signature-SHA256")).isSome = true
          ↔ s.signingKey ≠ [])
      ∧ (s.signingKey ≠ [] →
          (buildRequest s endpoint body).header.Values (utf8 "X-Signature-SHA256")
            = some [computeHMAC (buildRequest s endpoint body).body s.signingKey]) := by
  refine ⟨send_sent env s endpoint body w, (buildRequest_basics s endpoint body).2.2.1, ?_, ?_⟩
  · by_cases h : s.signingKey = []
    · rw [buildRequest_unsigned s endpoint body h]
      simp only [h, ne_eq, not_true_eq_false, iff_false]
      decide
    · rw [buildRequest_signed s endpoint body h]
      simp only [h, ne_eq, not_false_eq_true, iff_true]
      rfl
  · intro h
    rw [buildRequest_signed s endpoint body h]
    rfl

/-- C3 at the signing key `secret` of the tests and the test body. -/
theorem send_signature_header_witness :
    signingSvc.signingKey ≠ []
      ∧ (buildRequest signingSvc sampleSub.URL testBody).header.Values (utf8 "X-Signature-SHA256")
          = some [computeHMAC (buildRequest signingSvc sampleSub.URL testBody).body
              signingSvc.signingKey] :=
  ⟨by decide, (send_signature_header sampleEnv signingSvc sampleSub.URL testBody emptyWorld).2.2.2
    (by decide)⟩

/-- C7. When marshalling the event fails, `dispatch` returns (it is a total
function), the requests handed to the client are those handed before, whatever
the subscriptions, and the only effect is one error record in the log.
Marshalling fails exactly when `MarshalJSON` of the timestamp fails. -/
theorem dispatch_marshal_failure (env : Env) (s : Service) (event : Event) (w : World)
    (h : jsonMarshal env event = none) :
    dispatch env s event w = { w with log := w.log ++ [.error "webhook marshal error"] }
      ∧ (dispatch env s event w).sent = w.sent
      ∧ dispatchRequests env s event = []
      ∧ env.timeText event.Timestamp = none := by
  refine ⟨?_, ?_, ?_, ?_⟩
  · simp only [dispatch, h]
  · simp only [dispatch, h]
  · simp only [dispatchRequests, h]
  · unfold jsonMarshal at h
    cases ht : env.timeText event.Timestamp with
    | none => rfl
    | some ts =>
      rw [ht] at h
      exact absurd h (by simp)

/-- C7 at an event with a timestamp in the year 10000 and a service with a
subscription to its type. -/
theorem dispatch_marshal_failure_witness :
    sampleSub.subscribedTo year10000Event.type = true
      ∧ jsonMarshal sampleEnv year10000Event = none
      ∧ (dispatch sampleEnv sampleSvc year10000Event emptyWorld).sent = [] :=
  ⟨by decide, by decide,
    (dispatch_marshal_failure sampleEnv sampleSvc year10000Event emptyWorld (by decide)).2.1⟩

/-! ## Start: order of delivery -/

theorem dispatchRequests_congr (env : Env) (s1 s2 : Service) (event : Event)
    (h1 : s1.subscriptions = s2.subscriptions) (h2 : s1.signingKey = s2.signingKey)
    (h3 : s1.timeout = s2.timeout) :
    dispatchRequests env s1 event = dispatchRequests env s2 event := by
  have hb : ∀ u body, buildRequest s1 u body = buildRequest s2 u body := by
    intro u body
    simp only [buildRequest, h2, h3]
  simp only [dispatchRequests, h1, hb]

theorem Notify_config (s : Service) (e : Event) (w : World) :
    (Notify s e w).1.subscriptions = s.subscriptions
      ∧ (Notify s e w).1.signingKey = s.signingKey
      ∧ (Notify s e w).1.timeout = s.timeout
      ∧ (Notify s e w).2.sent = w.sent
      ∧ ((Notify s e w).1.events.buf = s.events.buf
          ∨ (Notify s e w).1.events.buf = s.events.buf ++ [e]) := by
  by_cases h : s.events.buf.length < s.events.cap
  · rw [Notify_room s e w h]
    exact ⟨rfl, rfl, rfl, rfl, Or.inr rfl⟩
  · rw [Notify_full s e w (by omega)]
    exact ⟨rfl, rfl, rfl, rfl, Or.inl rfl⟩

theorem step_ordered (env : Env) (svc : Service) (st st1 : System) (op : Op)
    (h : Ordered env svc st) (hs : step env st op = some st1) : Ordered env svc st1 := by
  obtain ⟨h1, h2, h3, h4, h5⟩ := h
  cases op with
  | notify e =>
    simp only [step, Option.some.injEq] at hs
    subst hs
    obtain ⟨c1, c2, c3, c4, c5⟩ := Notify_config st.svc e st.world
    refine ⟨c1.trans h1, c2.trans h2, c3.trans h3, ?_, c4.trans h5⟩
    show (st.dispatched ++ (Notify st.svc e st.world).1.events.buf).Sublist (st.notified ++ [e])
    rcases c5 with c5 | c5
    · rw [c5]
      exact h4.trans (List.sublist_append_left _ _)
    · rw [c5, ← List.append_assoc]
      exact List.Sublist.append h4 (List.Sublist.refl _)
  | cancel =>
    simp only [step, Option.some.injEq] at hs
    subst hs
    exact ⟨h1, h2, h3, h4, h5⟩
  | startDone =>
    simp only [step, Start] at hs
    split at hs
    · simp only [Option.some.injEq] at hs
      subst hs
      exact ⟨h1, h2, h3, h4, h5⟩
    · exact absurd hs (by simp)
  | startEvent =>
    simp only [step, Start] at hs
    split at hs
    · split at hs
      · exact absurd hs (by simp)
      · rename_i e rest hbuf
        simp only [Option.some.injEq] at hs
        subst hs
        refine ⟨h1, h2, h3, ?_, ?_⟩
        · show ((st.dispatched ++ [e]) ++ rest).Sublist st.notified
          rw [hbuf] at h4
          rw [List.append_assoc]
          exact h4
        · show (dispatch env st.svc e st.world).sent
            = (st.dispatched ++ [e]).flatMap (dispatchRequests env svc)
          rw [dispatch_sent, h5, dispatchRequests_congr env st.svc svc e h1 h2 h3]
          simp [List.flatMap_append]
    · exact absurd hs (by simp)

theorem step_notified (env : Env) (st st1 : System) (op : Op) (hs : step env st op = some st1) :
    st1.notified = st.notified ++ notifiedOf [op] := by
  cases op with
  | notify e =>
    simp only [step, Option.some.injEq] at hs
    subst hs
    rfl
  | cancel =>
    simp only [step, Option.some.injEq] at hs
    subst hs
    simp [notifiedOf]
  | startDone =>
    simp only [step, Start] at hs
    split at hs
    · simp only [Option.some.injEq] at hs
      subst hs
      simp [notifiedOf]
    · exact absurd hs (by simp)
  | startEvent =>
    simp only [step, Start] at hs
    split at hs
    · split at hs
      · exact absurd hs (by simp)
      · simp only [Option.some.injEq] at hs
        subst hs
        simp [notifiedOf]
    · exact absurd hs (by simp)

theorem notifiedOf_cons (op : Op) (ops : List Op) :
    notifiedOf (op :: ops) = notifiedOf [op] ++ notifiedOf ops := by
  cases op <;> simp [notifiedOf]

theorem run_ordered (env : Env) (svc : Service) (ops : List Op) (st st1 : System)
    (h : Ordered env svc st) (hr : run env st ops = some st1) :
    Ordered env svc st1 ∧ st1.notified = st.notified ++ notifiedOf ops := by
  induction ops generalizing st with
  | nil =>
    simp only [run, Option.some.injEq] at hr
    subst hr
    exact ⟨h, by simp [notifiedOf]⟩
  | cons op ops ih =>
    simp only [run] at hr
    split at hr
    · exact absurd hr (by simp)
    · rename_i st2 hstep
      obtain ⟨ho, hn⟩ := ih st2 (step_ordered env svc st st2 op h hstep) hr
      refine ⟨ho, ?_⟩
      rw [hn, step_notified env st st2 op hstep, notifiedOf_cons op ops, List.append_assoc]

theorem flatMap_filter_url (url : GoString) (f : Event → List HttpRequest) (es : List Event) :
    (es.flatMap f).filter (fun r => r.url == url)
      = es.flatMap fun e => (f e).filter fun r => r.url == url := by
  induction es with
  | nil => rfl
  | cons e es ih => simp [List.flatMap_cons, List.filter_append, ih]

/-- C9. For a service returned by `New` and drained by one `Start` loop, after
every schedule of `Notify` calls, cancellation and iterations of `Start`: the
events handed to `dispatch`, followed by the events still queued, are a
subsequence of the events passed to `Notify`, in the same relative order; the
requests handed to the client are those of the dispatched events, event after
event; so the requests to any one URL appear in the order in which their
events were enqueued. -/
theorem Start_delivery_order (env : Env) (subs : List Subscription) (key : GoString)
    (timeout : Duration) (bufferSize : Int) (client : HTTPClient) (svc : Service)
    (hnew : New env subs key timeout bufferSize client = some svc)
    (ops : List Op) (st : System) (hr : run env (initial svc) ops = some st) :
    st.notified = notifiedOf ops
      ∧ st.dispatched.Sublist st.notified
      ∧ (st.dispatched ++ st.svc.events.buf).Sublist st.notified
      ∧ st.world.sent = st.dispatched.flatMap (dispatchRequests env svc)
      ∧ (∀ url : GoString, st.world.sent.filter (fun r => r.url == url)
          = st.dispatched.flatMap fun e =>
              (dispatchRequests env svc e).filter fun r => r.url == url) := by
  have hb := (New_events env subs key timeout bufferSize client svc hnew).1
  have h0 : Ordered env svc (initial svc) := by
    refine ⟨rfl, rfl, rfl, ?_, rfl⟩
    show ([] ++ svc.events.buf).Sublist []
    rw [hb]
    exact List.Sublist.refl _
  obtain ⟨⟨_, _, _, h4, h5⟩, hn⟩ := run_ordered env svc ops (initial svc) st h0 hr
  refine ⟨by simpa [initial] using hn, (List.sublist_append_left _ _).trans h4, h4, h5, ?_⟩
  intro url
  rw [h5, flatMap_filter_url]

/-- C9 at a schedule of two `Notify` calls followed by two iterations of
`Start`, on the service of the tests. -/
theorem Start_delivery_order_witness :
    ∃ st, run sampleEnv (initial sampleSvc)
        [.notify sampleEvent, .notify captchaEvent, .startEvent, .startEvent] = some st
      ∧ st.dispatched = [sampleEvent, captchaEvent]
      ∧ st.dispatched.Sublist st.notified :=
  ⟨_, rfl, rfl,
    (Start_delivery_order sampleEnv [sampleSub] [] Second 0 failingClient sampleSvc rfl
      [.notify sampleEvent, .notify captchaEvent, .startEvent, .startEvent] _ rfl).2.1⟩

/-! ## Start: cancellation -/

theorem step_returned (env : Env) (st st1 : System) (op : Op) (h : st.running = false)
    (hs : step env st op = some st1) :
    st1.running = false ∧ st1.dispatched = st.dispatched ∧ st1.world.sent = st.world.sent := by
  cases op with
  | notify e =>
    simp only [step, Option.some.injEq] at hs
    subst hs
    exact ⟨h, rfl, (Notify_config st.svc e st.world).2.2.2.1⟩
  | cancel =>
    simp only [step, Option.some.injEq] at hs
    subst hs
    exact ⟨h, rfl, rfl⟩
  | startDone =>
    simp [step, Start, h] at hs
  | startEvent =>
    simp [step, Start, h] at hs

theorem run_returned (env : Env) (ops : List Op) (st st1 : System) (h : st.running = false)
    (hr : run env st ops = some st1) :
    st1.running = false ∧ st1.dispatched = st.dispatched ∧ st1.world.sent = st.world.sent := by
  induction ops generalizing st with
  | nil =>
    simp only [run, Option.some.injEq] at hr
    subst hr
    exact ⟨h, rfl, rfl⟩
  | cons op ops ih =>
    simp only [run] at hr
    split at hr
    · exact absurd hr (by simp)
    · rename_i st2 hstep
      obtain ⟨a1, a2, a3⟩ := step_returned env st st2 op h hstep
      obtain ⟨b1, b2, b3⟩ := ih st2 a1 hr
      exact ⟨b1, b2.trans a2, b3.trans a3⟩

/-- C10, refuted as stated: an event is queued, the context is cancelled, and
the next iteration of `Start` takes the event case of its `select`: the event
is dispatched and a request is sent after the cancellation. -/
theorem Start_dispatches_after_cancel :
    (run sampleEnv (initial sampleSvc) [.notify sampleEvent, .cancel, .startEvent]).map
        (fun st => (st.cancelled, st.dispatched, st.world.sent.map fun r => r.url))
      = some (true, [sampleEvent], [sampleSub.URL]) := by
  decide!

/-- C10, amended. While `Start` has not returned, a cancelled context enables
its return and a non-empty queue enables the dispatch of the head of the
queue, whether or not the context is cancelled: the `select` may take either.
With a cancelled context and an empty queue `Start` can only return. Once
`Start` has returned, whatever happens next, no event is dispatched and no
request is sent: the events in the queue at that moment are never
delivered. -/
theorem Start_cancellation (env : Env) :
    (∀ st : System, st.running = true → st.cancelled = true →
        Start env st .done = some { st with running := false })
      ∧ (∀ (st : System) (e : Event) (rest : List Event), st.running = true →
          st.svc.events.buf = e :: rest →
          ∃ st1, Start env st .event = some st1 ∧ st1.dispatched = st.dispatched ++ [e]
            ∧ st1.world = dispatch env st.svc e st.world ∧ st1.svc.events.buf = rest
            ∧ st1.cancelled = st.cancelled)
      ∧ (∀ st : System, st.svc.events.buf = [] → Start env st .event = none)
      ∧ (∀ (st st1 : System) (ops : List Op), st.running = false →
          run env st ops = some st1 →
          st1.running = false ∧ st1.dispatched = st.dispatched
            ∧ st1.world.sent = st.world.sent) := by
  refine ⟨?_, ?_, ?_, ?_⟩
  · intro st hr hc
    simp [step, Start, hr, hc]
  · intro st e rest hr hb
    have hstep : Start env st .event
        = some { st with svc := { st.svc with events := { st.svc.events with buf := rest } },
                         world := dispatch env st.svc e st.world,
                         dispatched := st.dispatched ++ [e] } := by
      simp only [step, Start, hr, hb, if_true]
    exact ⟨_, hstep, rfl, rfl, rfl, rfl⟩
  · intro st hb
    simp [step, Start, hb]
  · intro st st1 ops h hr
    exact run_returned env ops st st1 h hr

/-- C10, amended, on the service of the tests: an event is queued, the context
is cancelled and `Start` returns; the event is never dispatched by the moves
that follow. -/
theorem Start_cancellation_witness :
    ∃ st st1, run sampleEnv (initial sampleSvc) [.notify sampleEvent, .cancel, .startDone] = some st
      ∧ st.svc.events.buf = [sampleEvent] ∧ st.running = false
      ∧ run sampleEnv st [.notify captchaEvent, .cancel] = some st1
      ∧ st1.dispatched = [] ∧ st1.world.sent = [] :=
  ⟨_, _, rfl, rfl, rfl, rfl,
    ((Start_cancellation sampleEnv).2.2.2 _ _ [.notify captchaEvent, .cancel] rfl rfl).2⟩


/-! ## json.Unmarshal reads back what json.Marshal wrote -/

theorem encodeRune_ascii (c : Nat) (h : c < 0x80) : encodeRune c = [c] := by
  simp [encodeRune, h]

theorem decodeRune_valid (c : Nat) (t : List Nat) (hc : 0x80 ≤ c)
    (hv : ¬ ((decodeRune (c :: t)).1 = 0xFFFD ∧ (decodeRune (c :: t)).2 = 1)) :
    ∃ pre t', t = pre ++ t' ∧ pre.length + 1 = (decodeRune (c :: t)).2
      ∧ encodeRune (decodeRune (c :: t)).1 = c :: pre
      ∧ ∀ X, decodeRune (c :: (pre ++ X)) = decodeRune (c :: t) := by
  have h1 : ¬ c < 0x80 := by omega
  by_cases h2 : c < 0xC2
  · exact absurd (by simp [decodeRune, h1, h2]) hv
  by_cases h3 : c < 0xE0
  · rcases t with _ | ⟨b1, t'⟩
    · exact absurd (by simp [decodeRune, h1, h2, h3]) hv
    · by_cases hb : 0x80 ≤ b1 ∧ b1 ≤ 0xBF
      · refine ⟨[b1], t', rfl, ?_, ?_, ?_⟩
        · simp [decodeRune, h1, h2, h3, hb]
        · simp only [decodeRune, h1, h2, h3, hb, if_false, if_true, decide_True, Bool.and_self]
          simp only [encodeRune]
          split_ifs <;> simp <;> omega
        · intro X
          simp [decodeRune, h1, h2, h3, hb]
      · exact absurd (by
          have : (decide (0x80 ≤ b1) && decide (b1 ≤ 0xBF)) = false := by
            simp only [Bool.and_eq_false_imp, decide_eq_true_eq, decide_eq_false_iff_not]
            intro h; omega
          simp [decodeRune, h1, h2, h3, this]) hv
  by_cases h4 : c < 0xF0
  · rcases t with _ | ⟨b1, _ | ⟨b2, t'⟩⟩
    · exact absurd (by simp [decodeRune, h1, h2, h3, h4]) hv
    · exact absurd (by simp [decodeRune, h1, h2, h3, h4]) hv
    · by_cases hb : (if c = 0xE0 then 0xA0 else 0x80) ≤ b1 ∧ b1 ≤ (if c = 0xED then 0x9F else 0xBF)
          ∧ 0x80 ≤ b2 ∧ b2 ≤ 0xBF
      · have hd : decodeRune (c :: b1 :: b2 :: t')
            = ((c - 0xE0) * 4096 + (b1 - 0x80) * 64 + (b2 - 0x80), 3) := by
          simp [decodeRune, h1, h2, h3, h4, hb]
        refine ⟨[b1, b2], t', rfl, ?_, ?_, ?_⟩
        · rw [hd]; rfl
        · rw [hd]
          simp only [encodeRune]
          split_ifs at hb ⊢ <;> simp <;> omega
        · intro X
          rw [hd]
          simp [decodeRune, h1, h2, h3, h4, hb]
      · exact absurd (by
          have : (decide ((if c = 0xE0 then 0xA0 else 0x80) ≤ b1)
              && decide (b1 ≤ (if c = 0xED then 0x9F else 0xBF))
              && decide (0x80 ≤ b2) && decide (b2 ≤ 0xBF)) = false := by
            by_contra hne
            apply hb
            simp only [Bool.not_eq_false, Bool.and_eq_true, decide_eq_true_eq] at hne
            exact ⟨hne.1.1.1, hne.1.1.2, hne.1.2, hne.2⟩
          simp [decodeRune, h1, h2, h3, h4, this]) hv
  by_cases h5 : c < 0xF5
  · rcases t with _ | ⟨b1, _ | ⟨b2, _ | ⟨b3, t'⟩⟩⟩
    · exact absurd (by simp [decodeRune, h1, h2, h3, h4, h5]) hv
    · exact absurd (by simp [decodeRune, h1, h2, h3, h4, h5]) hv
    · exact absurd (by simp [decodeRune, h1, h2, h3, h4, h5]) hv
    · by_cases hb : (if c = 0xF0 then 0x90 else 0x80) ≤ b1 ∧ b1 ≤ (if c = 0xF4 then 0x8F else 0xBF)
          ∧ 0x80 ≤ b2 ∧ b2 ≤ 0xBF ∧ 0x80 ≤ b3 ∧ b3 ≤ 0xBF
      · have hd : decodeRune (c :: b1 :: b2 :: b3 :: t')
            = ((c - 0xF0) * 262144 + (b1 - 0x80) * 4096 + (b2 - 0x80) * 64 + (b3 - 0x80), 4) := by
          simp [decodeRune, h1, h2, h3, h4, h5, hb]
        refine ⟨[b1, b2, b3], t', rfl, ?_, ?_, ?_⟩
        · rw [hd]; rfl
        · rw [hd]
          simp only [encodeRune]
          split_ifs at hb ⊢ <;> simp <;> omega
        · intro X
          rw [hd]
          simp [decodeRune, h1, h2, h3, h4, h5, hb]
      · exact absurd (by
          have : (decide ((if c = 0xF0 then 0x90 else 0x80) ≤ b1)
              && decide (b1 ≤ (if c = 0xF4 then 0x8F else 0xBF))
              && decide (0x80 ≤ b2) && decide (b2 ≤ 0xBF)
              && decide (0x80 ≤ b3) && decide (b3 ≤ 0xBF)) = false := by
            by_contra hne
            apply hb
            simp only [Bool.not_eq_false, Bool.and_eq_true, decide_eq_true_eq] at hne
            exact ⟨hne.1.1.1.1.1, hne.1.1.1.1.2, hne.1.1.1.2, hne.1.1.2, hne.1.2, hne.2⟩
          simp [decodeRune, h1, h2, h3, h4, h5, this]) hv
  · exact absurd (by simp [decodeRune, h1, h2, h3, h4, h5]) hv

theorem readString_escapeASCII (c : Nat) (h : c < 0x80) (fuel : Nat) (tail : List Nat) :
    readString (fuel + 1) (escapeASCII c ++ tail) = prepend [c] (readString fuel tail) := by
  interval_cases c <;> rfl

theorem escapeASCII_length_pos (c : Nat) : 0 < (escapeASCII c).length := by
  unfold escapeASCII
  split_ifs <;> simp [utf8, encodeRune]

theorem prepend_some (pre s rest : List Nat) :
    prepend pre (some (s, rest)) = some (pre ++ s, rest) := rfl

theorem readString_nonascii (c : Nat) (hc : 0x80 ≤ c) (fuel : Nat) (rest : List Nat) :
    readString (fuel + 1) (c :: rest)
      = prepend (encodeRune (decodeRune (c :: rest)).1)
          (readString fuel (rest.drop ((decodeRune (c :: rest)).2 - 1))) := by
  have h1 : c ≠ 0x22 := by omega
  have h2 : c ≠ 0x5c := by omega
  have h3 : ¬ c < 0x20 := by omega
  have h4 : ¬ c < 0x80 := by omega
  rw [readString.eq_def]
  simp only [h1, h2, h3, h4, if_false]

theorem readString_u2028 (fuel : Nat) (X : List Nat) :
    readString (fuel + 1) (utf8 "\\u202" ++ [hextable.getD (0x2028 % 16) 0] ++ X)
      = prepend (encodeRune 0x2028) (readString fuel X) := rfl

theorem readString_u2029 (fuel : Nat) (X : List Nat) :
    readString (fuel + 1) (utf8 "\\u202" ++ [hextable.getD (0x2029 % 16) 0] ++ X)
      = prepend (encodeRune 0x2029) (readString fuel X) := rfl

theorem readString_escapeLoop (n : Nat) : ∀ (s : GoString) (rest : List Nat) (fuel : Nat),
    validLoop n s = true → (escapeLoop n s).length < fuel →
    readString fuel (escapeLoop n s ++ 0x22 :: rest) = some (s, rest) := by
  induction n with
  | zero =>
    intro s rest fuel hv hf
    cases s with
    | nil =>
      obtain ⟨f, rfl⟩ : ∃ f, fuel = f + 1 := ⟨fuel - 1, by omega⟩
      rfl
    | cons c t => simp [validLoop] at hv
  | succ n ih =>
    intro s rest fuel hv hf
    cases s with
    | nil =>
      obtain ⟨f, rfl⟩ : ∃ f, fuel = f + 1 := ⟨fuel - 1, by omega⟩
      rfl
    | cons c t =>
      by_cases hc : c < 0x80
      · have he : escapeLoop (n + 1) (c :: t) = escapeASCII c ++ escapeLoop n t := by
          simp [escapeLoop, hc]
        have hv' : validLoop n t = true := by
          simpa [validLoop, hc] using hv
        rw [he] at hf ⊢
        have hp := escapeASCII_length_pos c
        rw [List.length_append] at hf
        obtain ⟨f, rfl⟩ : ∃ f, fuel = f + 1 := ⟨fuel - 1, by omega⟩
        rw [List.append_assoc, readString_escapeASCII c hc, ih t rest f hv' (by omega)]
        rfl
      · have hc' : 0x80 ≤ c := by omega
        have hvv : ¬ ((decodeRune (c :: t)).1 = 0xFFFD ∧ (decodeRune (c :: t)).2 = 1)
            ∧ validLoop n (t.drop ((decodeRune (c :: t)).2 - 1)) = true := by
          simp only [validLoop, hc, if_false] at hv
          by_cases hbad : (decodeRune (c :: t)).1 = 0xFFFD ∧ (decodeRune (c :: t)).2 = 1
          · simp [hbad] at hv
          · simp only [hbad, if_false] at hv
            exact ⟨hbad, hv⟩
        obtain ⟨hbad, hv'⟩ := hvv
        obtain ⟨pre, t', ht, hlen, henc, hpre⟩ := decodeRune_valid c t hc' hbad
        have hdrop : t.drop ((decodeRune (c :: t)).2 - 1) = t' := by
          rw [← hlen, ht]
          simp
        rw [hdrop] at hv'
        obtain ⟨f, rfl⟩ : ∃ f, fuel = f + 1 := ⟨fuel - 1, by omega⟩
        by_cases hls : (decodeRune (c :: t)).1 = 0x2028 ∨ (decodeRune (c :: t)).1 = 0x2029
        · have he : escapeLoop (n + 1) (c :: t)
              = utf8 "\\u202" ++ [hextable.getD ((decodeRune (c :: t)).1 % 16) 0]
                  ++ escapeLoop n t' := by
            simp only [escapeLoop, hc, if_false, hbad, hls, if_true, hdrop]
          rw [he] at hf ⊢
          have hf' : (escapeLoop n t').length < f := by
            simp only [List.length_append] at hf
            have h5 : (utf8 "\\u202").length = 5 := rfl
            omega
          rcases hls with hls | hls
          · rw [hls] at henc ⊢
            rw [List.append_assoc, readString_u2028, ih t' rest f hv' hf', prepend_some, henc, ht]
            rfl
          · rw [hls] at henc ⊢
            rw [List.append_assoc, readString_u2029, ih t' rest f hv' hf', prepend_some, henc, ht]
            rfl
        · have he : escapeLoop (n + 1) (c :: t) = (c :: pre) ++ escapeLoop n t' := by
            simp only [escapeLoop, hc, if_false, hbad, hls, hdrop]
            rw [← hlen, ht]
            simp
          rw [he] at hf ⊢
          have hf' : (escapeLoop n t').length < f := by
            simp only [List.length_append, List.length_cons] at hf
            omega
          simp only [List.cons_append, List.append_assoc]
          rw [readString_nonascii c hc', hpre, ← hlen]
          simp only [Nat.add_sub_cancel, List.drop_left]
          rw [ih t' rest f hv' hf', prepend_some, henc, ht]
          rfl

theorem scanString_timeText (ts rest : List Nat) (h : ts.all isTimeByte = true) :
    scanString (ts ++ 0x22 :: rest) = some (ts, rest) := by
  induction ts with
  | nil =>
    rw [List.nil_append, scanString.eq_def]
    simp
  | cons c t ih =>
    simp only [List.all_cons, Bool.and_eq_true] at h
    have hc := h.1
    simp only [isTimeByte, Bool.or_eq_true, Bool.and_eq_true, decide_eq_true_eq,
      beq_iff_eq] at hc
    have h1 : c ≠ 0x22 := by omega
    have h2 : c ≠ 0x5c := by omega
    have h3 : ¬ c < 0x20 := by omega
    rw [List.cons_append, scanString.eq_def]
    simp only [h1, h2, h3, if_false, ih h.2]
    rfl

theorem jsonString_eq (v : GoString) :
    jsonString v = 0x22 :: (escapeLoop v.length v ++ [0x22]) := by
  simp [jsonString]

theorem readStringField_jsonString (cur v : GoString) (rest : List Nat)
    (hv : validUTF8 v = true) : readStringField cur (jsonString v ++ rest) = some (v, rest) := by
  rw [jsonString_eq]
  simp only [List.cons_append, List.append_assoc, List.singleton_append, readStringField]
  exact readString_escapeLoop v.length v rest _ hv (by simp)

theorem skipSpace_quote (X : List Nat) : skipSpace (0x22 :: X) = 0x22 :: X := rfl

theorem skipSpace_colon (X : List Nat) : skipSpace (0x3a :: X) = 0x3a :: X := rfl

theorem skipSpace_comma (X : List Nat) : skipSpace (0x2c :: X) = 0x2c :: X := rfl

theorem skipSpace_brace (X : List Nat) : skipSpace (0x7b :: X) = 0x7b :: X := rfl

theorem skipSpace_close (X : List Nat) : skipSpace (0x7d :: X) = 0x7d :: X := rfl

theorem parseMember_key {σ : Type} (store : GoString → σ → List Nat → Option (σ × List Nat))
    (st : σ) (key : GoString) (hk1 : validUTF8 key = true) (hk2 : escapeLoop key.length key = key)
    (value : List Nat) (hval : skipSpace value = value) :
    parseMember store st ([0x22] ++ key ++ [0x22, 0x3a] ++ value) = store key st value := by
  have hread : readString (key ++ 0x22 :: 0x3a :: value).length (key ++ 0x22 :: 0x3a :: value)
      = some (key, 0x3a :: value) := by
    have := readString_escapeLoop key.length key (0x3a :: value)
      (key ++ 0x22 :: 0x3a :: value).length hk1 (by rw [hk2]; simp)
    rw [hk2] at this
    exact this
  simp only [List.singleton_append, List.cons_append, List.append_assoc, List.nil_append,
    parseMember, hread, skipSpace_colon, hval]

theorem jsonMember_eq (name : String) (value rest : List Nat) :
    jsonMember name value ++ rest = [0x22] ++ utf8 name ++ [0x22, 0x3a] ++ (value ++ rest) := by
  simp [jsonMember]

theorem stringStep_parses {σ : Type} (store : GoString → σ → List Nat → Option (σ × List Nat))
    (name : String) (get : σ → GoString) (set : GoString → σ → σ)
    (hstore : ∀ st inp, store (utf8 name) st inp
      = (readStringField (get st) inp).map fun q => (set q.1 st, q.2))
    (hk1 : validUTF8 (utf8 name) = true)
    (hk2 : escapeLoop (utf8 name).length (utf8 name) = utf8 name)
    (v : GoString) (hv : validUTF8 v = true) (st : σ) (rest : List Nat) :
    parseMember store st ((stringStep name set v).1 ++ rest)
      = some ((stringStep name set v).2 st, rest) := by
  simp only [stringStep]
  rw [jsonMember_eq, parseMember_key store st (utf8 name) hk1 hk2 _
    (by rw [jsonString_eq]; rfl), hstore, readStringField_jsonString _ v rest hv]
  rfl

theorem parseMembers_steps {σ : Type} (store : GoString → σ → List Nat → Option (σ × List Nat))
    (steps : List (List Nat × (σ → σ))) :
    (∀ p ∈ steps, (∃ m, p.1 = 0x22 :: m)
      ∧ ∀ st rest, parseMember store st (p.1 ++ rest) = some (p.2 st, rest)) →
    steps ≠ [] → ∀ (st : σ) (rest : List Nat) (fuel : Nat), steps.length ≤ fuel →
    parseMembers store fuel st (((steps.map Prod.fst).intersperse [0x2c]).flatten ++ 0x7d :: rest)
      = some (applySteps steps st, rest) := by
  induction steps with
  | nil => intro _ h; exact absurd rfl h
  | cons p more ih =>
    intro hstep _ st rest fuel hfuel
    obtain ⟨⟨m, hm⟩, hp⟩ := hstep p (List.mem_cons_self _ _)
    obtain ⟨f, rfl⟩ : ∃ f, fuel = f + 1 := ⟨fuel - 1, by simp at hfuel; omega⟩
    cases more with
    | nil =>
      simp only [List.map_cons, List.map_nil, List.intersperse_single, List.flatten_cons,
        List.flatten_nil, List.append_nil, parseMembers]
      have hs : skipSpace (p.1 ++ 0x7d :: rest) = p.1 ++ 0x7d :: rest := by
        rw [hm]; rfl
      rw [hs, hp]
      simp only [skipSpace_close]
      rfl
    | cons q more2 =>
      have hrec := ih (fun x hx => hstep x (List.mem_cons_of_mem _ hx)) (by simp)
        (p.2 st) rest f (by simp at hfuel ⊢; omega)
      simp only [List.map_cons, List.intersperse_cons₂, List.flatten_cons, List.append_assoc,
        List.singleton_append, List.cons_append, parseMembers] at hrec ⊢
      have hs : ∀ X, skipSpace (p.1 ++ X) = p.1 ++ X := by
        intro X; rw [hm]; rfl
      rw [hs, hp]
      simp only [skipSpace_comma, List.nil_append]
      rw [hrec]
      rfl

theorem steps_length_le {σ : Type} (steps : List (List Nat × (σ → σ)))
    (h : ∀ p ∈ steps, ∃ m, p.1 = 0x22 :: m) :
    steps.length ≤ ((steps.map Prod.fst).intersperse [0x2c]).flatten.length := by
  induction steps with
  | nil => simp
  | cons p more ih =>
    obtain ⟨m, hm⟩ := h p (List.mem_cons_self _ _)
    have ih' := ih (fun x hx => h x (List.mem_cons_of_mem _ hx))
    cases more with
    | nil => simp [hm]
    | cons q more2 =>
      simp only [List.map_cons, List.intersperse_cons₂, List.flatten_cons, List.length_append,
        List.length_cons, hm] at ih' ⊢
      omega

theorem parseObject_steps {σ : Type} (store : GoString → σ → List Nat → Option (σ × List Nat))
    (steps : List (List Nat × (σ → σ)))
    (hstep : ∀ p ∈ steps, (∃ m, p.1 = 0x22 :: m)
      ∧ ∀ st rest, parseMember store st (p.1 ++ rest) = some (p.2 st, rest))
    (st : σ) (rest : List Nat) :
    parseObject store st (((steps.map Prod.fst).intersperse [0x2c]).flatten ++ 0x7d :: rest)
      = some (applySteps steps st, rest) := by
  cases steps with
  | nil => rfl
  | cons p more =>
    obtain ⟨m, hm⟩ := (hstep p (List.mem_cons_self _ _)).1
    have hhead : ∃ X, (((p :: more).map Prod.fst).intersperse [0x2c]).flatten ++ 0x7d :: rest
        = 0x22 :: X := by
      cases more with
      | nil => exact ⟨m ++ 0x7d :: rest, by simp [hm]⟩
      | cons q more2 => exact ⟨_, by simp [hm]; rfl⟩
    obtain ⟨X, hX⟩ := hhead
    have hpo : parseObject store st (0x22 :: X) = parseMembers store (0x22 :: X).length st (0x22 :: X) := rfl
    have hlen := steps_length_le (p :: more) (fun x hx => (hstep x hx).1)
    rw [← hX] at hpo
    rw [hpo]
    exact parseMembers_steps store (p :: more) hstep (by simp) st rest _
      (by rw [List.length_append]; omega)

theorem stringStep_quote {σ : Type} (name : String) (set : GoString → σ → σ) (v : GoString) :
    ∃ m, (stringStep name set v).1 = 0x22 :: m :=
  ⟨_, by simp [stringStep, jsonMember]; rfl⟩

theorem optStep_parses {σ : Type} (store : GoString → σ → List Nat → Option (σ × List Nat))
    (name : String) (get : σ → GoString) (set : GoString → σ → σ)
    (hstore : ∀ st inp, store (utf8 name) st inp
      = (readStringField (get st) inp).map fun q => (set q.1 st, q.2))
    (hk1 : validUTF8 (utf8 name) = true)
    (hk2 : escapeLoop (utf8 name).length (utf8 name) = utf8 name)
    (v : GoString) (hv : validUTF8 v = true) :
    ∀ p ∈ optStep name set v, (∃ m, p.1 = 0x22 :: m)
      ∧ ∀ st rest, parseMember store st (p.1 ++ rest) = some (p.2 st, rest) := by
  intro p hp
  unfold optStep at hp
  split_ifs at hp
  · exact absurd hp (List.not_mem_nil _)
  · rw [List.mem_singleton] at hp
    subst hp
    exact ⟨stringStep_quote name set v,
      stringStep_parses store name get set hstore hk1 hk2 v hv⟩

theorem optStep_fst {σ : Type} (name : String) (set : GoString → σ → σ) (v : GoString) :
    (optStep name set v).map Prod.fst = omitEmpty name v := by
  unfold optStep omitEmpty
  split_ifs <;> rfl

theorem marshalRequest_eq (r : Request) :
    marshalRequest r = jsonObject ((requestSteps r).map Prod.fst) := by
  simp only [marshalRequest, requestSteps, List.map_append, optStep_fst]

theorem requestSteps_parse (r : Request) (hr : r.validStrings = true) :
    ∀ p ∈ requestSteps r, (∃ m, p.1 = 0x22 :: m)
      ∧ ∀ st rest, parseMember (storeRequest 2) st (p.1 ++ rest) = some (p.2 st, rest) := by
  simp only [Request.validStrings, Bool.and_eq_true] at hr
  obtain ⟨⟨⟨⟨⟨h1, h2⟩, h3⟩, h4⟩, h5⟩, h6⟩ := hr
  intro p hp
  simp only [requestSteps, List.mem_append] at hp
  rcases hp with ((((hp | hp) | hp) | hp) | hp) | hp
  · exact optStep_parses (storeRequest 2) "method" (fun x => x.Method)
      (fun v x => { x with Method := v }) (fun _ _ => rfl)
      (by decide) (by decide) r.Method h1 p hp
  · exact optStep_parses (storeRequest 2) "url" (fun x => x.URL)
      (fun v x => { x with URL := v }) (fun _ _ => rfl)
      (by decide) (by decide) r.URL h2 p hp
  · exact optStep_parses (storeRequest 2) "host" (fun x => x.Host)
      (fun v x => { x with Host := v }) (fun _ _ => rfl)
      (by decide) (by decide) r.Host h3 p hp
  · exact optStep_parses (storeRequest 2) "scheme" (fun x => x.Scheme)
      (fun v x => { x with Scheme := v }) (fun _ _ => rfl)
      (by decide) (by decide) r.Scheme h4 p hp
  · exact optStep_parses (storeRequest 2) "path" (fun x => x.Path)
      (fun v x => { x with Path := v }) (fun _ _ => rfl)
      (by decide) (by decide) r.Path h5 p hp
  · exact optStep_parses (storeRequest 2) "user_agent" (fun x => x.UserAgent)
      (fun v x => { x with UserAgent := v }) (fun _ _ => rfl)
      (by decide) (by decide) r.UserAgent h6 p hp

theorem applySteps_requestSteps (r : Request) : applySteps (requestSteps r) zeroRequest = r := by
  rcases r with ⟨m, u, h, s, p, a⟩
  simp only [requestSteps, optStep]
  split_ifs <;> simp_all [applySteps, stringStep, zeroRequest]

theorem readRequestField_marshalRequest (cur : Option Request) (r : Request)
    (hr : r.validStrings = true) (rest : List Nat) :
    readRequestField cur (marshalRequest r ++ rest)
      = some (some (applySteps (requestSteps r) (cur.getD zeroRequest)), rest) := by
  rw [marshalRequest_eq]
  simp only [jsonObject, List.singleton_append, List.cons_append, List.append_assoc,
    readRequestField, List.nil_append]
  rw [parseObject_steps (storeRequest 2) (requestSteps r) (requestSteps_parse r hr)]
  rfl

theorem timeStep_parses (env : Env) (t : Time) (ts : GoString) (hts : ts.all isTimeByte = true)
    (hp : env.timeParse ts = some t) (st : Event) (rest : List Nat) :
    parseMember (storeEvent env) st (jsonMember "timestamp" ([0x22] ++ ts ++ [0x22]) ++ rest)
      = some ({ st with Timestamp := t }, rest) := by
  rw [jsonMember_eq, parseMember_key (storeEvent env) st (utf8 "timestamp") (by decide)
    (by decide) _ (by rfl)]
  have hstore : ∀ inp, storeEvent env (utf8 "timestamp") st inp
      = (readTimeField env st.Timestamp inp).map fun p => ({ st with Timestamp := p.1 }, p.2) :=
    fun _ => rfl
  rw [hstore]
  simp only [List.singleton_append, List.cons_append, List.append_assoc, List.nil_append,
    readTimeField, scanString_timeText ts rest hts, hp, Option.map_some']

theorem requestStep_parses (env : Env) (r : Request) (hr : r.validStrings = true)
    (st : Event) (rest : List Nat) :
    parseMember (storeEvent env) st (jsonMember "request" (marshalRequest r) ++ rest)
      = some ((fun x : Event =>
          let r1 := applySteps (requestSteps r) (x.Request.getD zeroRequest)
          { x with Request := some r1 }) st, rest) := by
  rw [jsonMember_eq, parseMember_key (storeEvent env) st (utf8 "request") (by decide)
    (by decide) _ (by rw [marshalRequest_eq]; rfl)]
  have hstore : ∀ inp, storeEvent env (utf8 "request") st inp
      = (readRequestField st.Request inp).map fun p => ({ st with Request := p.1 }, p.2) :=
    fun _ => rfl
  rw [hstore, readRequestField_marshalRequest st.Request r hr rest]
  rfl

theorem eventSteps_parse (env : Env) (e : Event) (ts : GoString) (hv : e.validStrings = true)
    (hts : ts.all isTimeByte = true) (hp : env.timeParse ts = some e.Timestamp) :
    ∀ p ∈ eventSteps e ts, (∃ m, p.1 = 0x22 :: m)
      ∧ ∀ st rest, parseMember (storeEvent env) st (p.1 ++ rest) = some (p.2 st, rest) := by
  simp only [Event.validStrings, Bool.and_eq_true] at hv
  obtain ⟨⟨⟨⟨h1, h2⟩, h3⟩, h4⟩, h5⟩ := hv
  intro p hp'
  simp only [eventSteps, List.mem_append, List.mem_cons, List.mem_singleton,
    List.not_mem_nil, or_false] at hp'
  rcases hp' with (hp' | hp' | hp' | hp' | hp') | hp'
  · subst hp'
    exact ⟨stringStep_quote _ _ _, stringStep_parses (storeEvent env) "type" (fun x => x.type)
      (fun v x => { x with type := v }) (fun _ _ => rfl) (by decide) (by decide) e.type h1⟩
  · subst hp'
    exact ⟨⟨_, by simp [jsonMember]; rfl⟩, timeStep_parses env e.Timestamp ts hts hp⟩
  · subst hp'
    exact ⟨stringStep_quote _ _ _, stringStep_parses (storeEvent env) "ip" (fun x => x.IP)
      (fun v x => { x with IP := v }) (fun _ _ => rfl) (by decide) (by decide) e.IP h2⟩
  · subst hp'
    exact ⟨stringStep_quote _ _ _, stringStep_parses (storeEvent env) "action"
      (fun x => x.Action) (fun v x => { x with Action := v }) (fun _ _ => rfl) (by decide)
      (by decide) e.Action h3⟩
  · subst hp'
    exact ⟨stringStep_quote _ _ _, stringStep_parses (storeEvent env) "reason"
      (fun x => x.Reason) (fun v x => { x with Reason := v }) (fun _ _ => rfl) (by decide)
      (by decide) e.Reason h4⟩
  · cases hreq : e.Request with
    | none =>
      rw [hreq] at hp'
      exact absurd hp' (List.not_mem_nil _)
    | some r =>
      rw [hreq] at hp' h5
      simp only [List.mem_singleton] at hp'
      subst hp'
      exact ⟨⟨_, by simp [jsonMember]; rfl⟩, requestStep_parses env r h5⟩

theorem jsonMarshal_eq (env : Env) (e : Event) (ts : GoString)
    (h : env.timeText e.Timestamp = some ts) :
    jsonMarshal env e = some (jsonObject ((eventSteps e ts).map Prod.fst)) := by
  simp only [jsonMarshal, h, eventSteps, stringStep]
  cases e.Request <;> rfl

theorem applySteps_eventSteps (e : Event) (ts : GoString) :
    applySteps (eventSteps e ts) zeroEvent = e := by
  rcases e with ⟨a, b, c, d, f, g⟩
  cases g with
  | none => rfl
  | some r =>
    simp only [applySteps, eventSteps, stringStep, zeroEvent, List.cons_append, List.nil_append,
      List.foldl_cons, List.foldl_nil, Option.getD_none]
    have := applySteps_requestSteps r
    simp only [applySteps] at this
    rw [this]

theorem jsonUnmarshal_jsonObject (env : Env) (e : Event) (ts : GoString)
    (hv : e.validStrings = true) (hts : ts.all isTimeByte = true)
    (hp : env.timeParse ts = some e.Timestamp) :
    jsonUnmarshal env (jsonObject ((eventSteps e ts).map Prod.fst)) = some e := by
  have hpo := parseObject_steps (storeEvent env) (eventSteps e ts)
    (eventSteps_parse env e ts hv hts hp) zeroEvent []
  simp only [jsonObject, List.singleton_append, List.cons_append, List.append_assoc,
    List.nil_append, jsonUnmarshal, skipSpace_brace, hpo, applySteps_eventSteps]
  rfl

theorem jsonUnmarshal_jsonMarshal (env : Env) (e : Event) (body : List Nat)
    (hm : jsonMarshal env e = some body) (hv : e.validStrings = true)
    (ht : ∀ ts, env.timeText e.Timestamp = some ts → env.timeParse ts = some e.Timestamp) :
    jsonUnmarshal env body = some e := by
  cases hts : env.timeText e.Timestamp with
  | none => simp [jsonMarshal, hts] at hm
  | some ts =>
    rw [jsonMarshal_eq env e ts hts] at hm
    rw [← Option.some.inj hm]
    exact jsonUnmarshal_jsonObject env e ts hv (env.timeText_ok _ _ hts) (ht ts hts)

/-- C8, refuted as stated: the event with the `IP` byte `0xff` serialises, and
decoding the payload gives the event with `U+FFFD` as `IP`, which is another
event; the event stamped with `time.Now()` serialises, and decoding the payload
gives the event with the timestamp without monotonic reading, in UTC, which is
another event. -/
theorem payload_round_trip_fails :
    ((jsonMarshal sampleEnv invalidIPEvent).bind (jsonUnmarshal sampleEnv) = some replacedIPEvent
        ∧ replacedIPEvent ≠ invalidIPEvent)
      ∧ ((jsonMarshal sampleEnv nowEvent).bind (jsonUnmarshal sampleEnv) = some nowEventRead
        ∧ nowEventRead ≠ nowEvent) := by
  decide!

/-- C8, amended. For every event, with or without request, whose serialisation
succeeds, whose strings are valid UTF-8 and whose timestamp `Time.UnmarshalJSON`
reads back from the text `Time.MarshalJSON` wrote: decoding the serialised
event, which is the body of every request `dispatch` sends for it, yields the
event itself. When the request is nil the payload is the object of the five
other members, without a member `request`. -/
theorem payload_round_trip (env : Env) (e : Event) (body : List Nat)
    (hm : jsonMarshal env e = some body) (hv : e.validStrings = true)
    (ht : ∀ ts, env.timeText e.Timestamp = some ts → env.timeParse ts = some e.Timestamp) :
    jsonUnmarshal env body = some e
      ∧ (∀ (s : Service) (req : HttpRequest), req ∈ dispatchRequests env s e →
          req.body = body ∧ jsonUnmarshal env req.body = some e)
      ∧ (e.Request = none →
          ∃ ts, env.timeText e.Timestamp = some ts
            ∧ body = jsonObject (membersWithoutRequest e ts)) := by
  have hmain := jsonUnmarshal_jsonMarshal env e body hm hv ht
  refine ⟨hmain, ?_, ?_⟩
  · intro s req hreq
    simp only [dispatchRequests, hm, List.mem_map] at hreq
    obtain ⟨sub, _, hsub⟩ := hreq
    have hb : req.body = body := by
      rw [← hsub]
      exact (buildRequest_basics s sub.URL body).2.2.1
    exact ⟨hb, by rw [hb]; exact hmain⟩
  · intro hnone
    cases hts : env.timeText e.Timestamp with
    | none => simp [jsonMarshal, hts] at hm
    | some ts =>
      refine ⟨ts, rfl, ?_⟩
      simp only [jsonMarshal, hts, hnone, List.append_nil, Option.some.injEq] at hm
      rw [← hm]
      rfl

/-- C8, amended, at the event of the tests, without request, and at an event
with a request. -/
theorem payload_round_trip_witness :
    (jsonMarshal sampleEnv sampleEvent).bind (jsonUnmarshal sampleEnv) = some sampleEvent
      ∧ (jsonMarshal sampleEnv requestEvent).bind (jsonUnmarshal sampleEnv) = some requestEvent := by
  have h1 : sampleEnv.timeText time2024 = some (utf8 "2024-01-01T00:00:00Z") := by decide
  have h2 : sampleEnv.timeParse (utf8 "2024-01-01T00:00:00Z") = some time2024 := by decide
  have ht : ∀ ts, sampleEnv.timeText time2024 = some ts → sampleEnv.timeParse ts = some time2024 := by
    intro ts h
    rw [h1] at h
    rw [← Option.some.inj h]
    exact h2
  obtain ⟨b1, hb1⟩ := Option.isSome_iff_exists.mp
    (show (jsonMarshal sampleEnv sampleEvent).isSome = true by decide!)
  obtain ⟨b2, hb2⟩ := Option.isSome_iff_exists.mp
    (show (jsonMarshal sampleEnv requestEvent).isSome = true by decide!)
  rw [hb1, hb2]
  simp only [Option.some_bind]
  exact ⟨(payload_round_trip sampleEnv sampleEvent b1 hb1 (by decide) ht).1,
    (payload_round_trip sampleEnv requestEvent b2 hb2 (by decide) ht).1⟩

end Webhook
